import Mathlib

/-!
Verification development for the libcel-ts expression engine
(lexer, recursive-descent parser, tree-walking interpreter).

Modelling conventions for the shallow embedding:
* JavaScript numbers are modelled by `Rat`.  The runtime has a single
  numeric type (plain JS `number`); `Number.isInteger q` is modelled by
  `q.den = 1`.  IEEE rounding is outside the model; every numeric fact
  proved here is about exact arithmetic on the modelled values.
* JavaScript `Record<string, any>` objects (the variable environment,
  evaluated map and struct values) are modelled by association lists
  `List (String × Value)` with first-match lookup, in-place overwrite
  and insertion-order preservation, which matches JS own-property
  semantics.  Prototype-chain properties (for instance `toString` being
  `in` every object) and the special `__proto__` key are not modelled:
  the `in` operator and property reads are modelled as own-key lookup.
* `String.prototype.localeCompare` is modelled as code-point
  lexicographic comparison returning -1, 0 or 1.
* JS string lengths and indexing are per `Char`; surrogate-pair
  (UTF-16 code unit) effects are outside the model.
* Recursive interpreter, parser and lexer loops take an explicit fuel
  argument; exhausting fuel is reported as a distinct error.  All
  claims are either fuel-generic or instantiated with sufficient fuel.
-/

namespace Cel

/-- Runtime value model from src/src/interpreter/index.ts: the interpreter
operates on plain JS values — null, boolean, number, string, array,
object.  Bytes literals are represented as strings at runtime
(visitLiteral returns the stored text unchanged), so there is no
separate bytes variant, and struct literals evaluate to plain objects,
so there is no separate struct variant and no integral/non-integral tag
on numbers. -/
inductive Value where
  | vnull
  | vbool (b : Bool)
  | vnum (n : Rat)
  | vstr (s : String)
  | vlist (xs : List Value)
  | vmap (entries : List (String × Value))
deriving Repr

/-- Variable environment: a JS `Record<string, any>` modelled as an
association list (insertion order preserved, first-match lookup). -/
abbrev Env := List (String × Value)

/-- Own-property read `obj[k]`: first matching key. -/
def jlookup {β : Type} : List (String × β) → String → Option β
  | [], _ => none
  | (k', v) :: rest, k => if k' = k then some v else jlookup rest k

/-- The JS `k in obj` test, as own-key lookup. -/
def jhas {β : Type} (es : List (String × β)) (k : String) : Bool :=
  (jlookup es k).isSome

/-- Property write `obj[k] = v`: overwrite in place if the key exists
(keeping its insertion position), otherwise append. -/
def jset {β : Type} : List (String × β) → String → β → List (String × β)
  | [], k, v => [(k, v)]
  | (k', v') :: rest, k, v =>
    if k' = k then (k, v) :: rest else (k', v') :: jset rest k v

/-- The JS `delete obj[k]` operation: remove the (unique) matching key. -/
def jdel {β : Type} : List (String × β) → String → List (String × β)
  | [], _ => []
  | (k', v') :: rest, k => if k' = k then rest else (k', v') :: jdel rest k

/-- Restore step from Interpreter.evaluateMacro (the finally block):
if the variable existed put the saved value back, otherwise delete it. -/
def restoreVar (env : Env) (k : String) : Option Value → Env
  | some v => jset env k v
  | none => jdel env k

/-- Smallest exponent k (up to the given fuel) with den dividing 10 ^ k. -/
def decExpGo (den : Nat) : Nat → Nat → Option Nat
  | 0, _ => none
  | fuel + 1, k => if 10 ^ k % den = 0 then some k else decExpGo den fuel (k + 1)

/-- Left-pad a digit string with zeros to the given width. -/
def padZeros (s : String) (width : Nat) : String :=
  String.mk (List.replicate (width - s.length) '0') ++ s

/-- JS number-to-string conversion modelled on `Rat`: integral values
print without a decimal point; non-integral values print as their exact
terminating decimal expansion (every literal double value modelled here
has a denominator dividing a power of ten, for which this coincides
with the shortest JS rendering).  The final fallback is unreachable for
such values. -/
def jsStringNum (q : Rat) : String :=
  if q.den = 1 then toString q.num
  else
    match decExpGo q.den 64 0 with
    | some k =>
      let m := (q.num * (10 : Int) ^ k / (q.den : Int)).natAbs
      let sign := if q.num < 0 then "-" else ""
      sign ++ toString (m / 10 ^ k) ++ "." ++ padZeros (toString (m % 10 ^ k)) k
    | none => toString q.num ++ "div" ++ toString q.den

mutual

/-- The JS `String(v)` coercion: null prints `null`, booleans print
their keyword, numbers per `jsStringNum`, arrays join their elements
with commas (Array.prototype.toString), objects print
`[object Object]`. -/
def jsString : Value → String
  | .vnull => "null"
  | .vbool b => if b then "true" else "false"
  | .vnum q => jsStringNum q
  | .vstr s => s
  | .vlist xs => jsStringList xs
  | .vmap _ => "[object Object]"

/-- Array.prototype.join with separator comma; null elements render as
the empty string. -/
def jsStringList : List Value → String
  | [] => ""
  | [.vnull] => ""
  | [v] => jsString v
  | .vnull :: rest => "," ++ jsStringList rest
  | v :: rest => jsString v ++ "," ++ jsStringList rest

end

/-- typeOf from src/src/functions/utilities.ts: a simple dynamic type
name.  Number.isInteger is modelled by the denominator test; the final
source fallback "unknown" is unreachable for modelled values. -/
def typeOf : Value → String
  | .vnull => "null"
  | .vbool _ => "bool"
  | .vnum q => if q.den = 1 then "int" else "double"
  | .vstr _ => "string"
  | .vlist _ => "list"
  | .vmap _ => "map"

mutual

/-- deepEquals from src/src/functions/utilities.ts: null only equals
null; arrays are equal iff same length and element-wise deep-equal;
objects are equal iff same key count and every left key is present in
the right with deep-equal value; numbers and the remaining primitives
compare by value; every other combination is false.  Total — the source
function contains no throw. -/
def deepEquals : Value → Value → Bool
  | .vnull, b => match b with | .vnull => true | _ => false
  | a, .vnull => match a with | .vnull => true | _ => false
  | .vlist as, .vlist bs => as.length == bs.length && deepEqualsList as bs
  | .vmap aes, .vmap bes => aes.length == bes.length && deepEqualsEntries aes bes
  | .vnum a, .vnum b => a == b
  | .vbool a, .vbool b => a == b
  | .vstr a, .vstr b => a == b
  | _, _ => false

/-- Element-wise deep equality of two lists of equal length. -/
def deepEqualsList : List Value → List Value → Bool
  | [], [] => true
  | a :: as, b :: bs => deepEquals a b && deepEqualsList as bs
  | _, _ => false

/-- Per-key comparison for the object branch of deepEquals: every key
of the left list must be present in the right with a deep-equal
value. -/
def deepEqualsEntries : List (String × Value) → List (String × Value) → Bool
  | [], _ => true
  | (k, v) :: rest, bes =>
    (match jlookup bes k with
     | some w => deepEquals v w
     | none => false) && deepEqualsEntries rest bes

end

mutual

/-- compare from src/src/functions/utilities.ts: null first (equal only
to null), numbers by difference, strings lexicographically (modelling
localeCompare), booleans false before true, arrays lexicographically
with the length difference as tie-break; everything else throws. -/
def compare : Value → Value → Except String Rat
  | .vnull, .vnull => .ok 0
  | .vnull, _ => .ok (-1)
  | _, .vnull => .ok 1
  | .vnum a, .vnum b => .ok (a - b)
  | .vstr a, .vstr b => .ok (if a < b then -1 else if a = b then 0 else 1)
  | .vbool a, .vbool b => .ok (if a = b then 0 else if a then 1 else -1)
  | .vlist as, .vlist bs => compareList as bs
  | _, _ => .error "Cannot compare types"

/-- Array comparison loop of compare: first non-zero element comparison
wins, otherwise the length difference decides. -/
def compareList : List Value → List Value → Except String Rat
  | [], bs => .ok (0 - (bs.length : Rat))
  | as, [] => .ok ((as.length : Rat))
  | a :: as, b :: bs =>
    match compare a b with
    | .error e => .error e
    | .ok c => if c = 0 then compareList as bs else .ok c

end

/-- containsInArray from src/src/functions/utilities.ts: linear search
with deep equality. -/
def containsInArray : List Value → Value → Bool
  | [], _ => false
  | item :: rest, v => deepEquals item v || containsInArray rest v

/-- Literal kinds from src/src/ast/index.ts (carried on Literal nodes;
ignored by the interpreter, which returns the stored value as is). -/
inductive LiteralType where
  | nullValue
  | boolType
  | intType
  | uintType
  | doubleType
  | stringType
  | bytesType
deriving Repr, DecidableEq

/-- Unary operators from src/src/ast/operators.ts. -/
inductive UnaryOp where
  | notOp
  | negate
deriving Repr, DecidableEq

/-- Binary operators from src/src/ast/operators.ts. -/
inductive BinaryOp where
  | add
  | subtract
  | multiply
  | divide
  | modulo
  | equal
  | notEqual
  | less
  | lessEqual
  | greater
  | greaterEqual
  | inOp
  | logicalAnd
  | logicalOr
deriving Repr, DecidableEq

/-- AST from src/src/ast/index.ts.  The Call node records the source
flag isMacro (here macroFlag); Select records isTest (here testFlag).
The Comprehension node of the source is omitted: the parser never
constructs it, so it is unreachable from any parsed program. -/
inductive Expr where
  | literal (v : Value) (ltype : LiteralType)
  | identifier (name : String)
  | select (operand : Option Expr) (field : String) (testFlag : Bool)
  | index (operand : Expr) (idx : Expr)
  | call (target : Option Expr) (functionName : String) (args : List Expr) (macroFlag : Bool)
  | listExpr (elements : List Expr)
  | mapExpr (entries : List (Expr × Expr))
  | struct (typeName : Option String) (fields : List (String × Expr))
  | unary (op : UnaryOp) (operand : Expr)
  | binary (op : BinaryOp) (left : Expr) (right : Expr)
  | conditional (condition : Expr) (thenExpr : Expr) (otherwiseExpr : Expr)
deriving Repr

/-- The strict-equality test `v === true` used pervasively by the
interpreter: true exactly for the boolean value true. -/
def isTrueV : Value → Bool
  | .vbool true => true
  | _ => false

/-- Own-property read for the object branches of visitSelect: maps read
their keys; arrays expose their canonical index keys and length. -/
def objGet : Value → String → Option Value
  | .vmap es, k => jlookup es k
  | .vlist xs, k =>
    if k = "length" then some (.vnum (xs.length : Rat))
    else
      match k.toNat? with
      | some i => if toString i = k then xs.get? i else none
      | none => none
  | _, _ => none

/-- visitSelect from src/src/interpreter/index.ts, after the operand has
been evaluated.  Null target: test mode yields false, normal mode
throws.  Object targets (maps and arrays): test mode yields the key
test, normal mode reads the key or throws when absent.  Any other
target type throws. -/
def selectField : Value → String → Bool → Except String Value
  | .vnull, field, t =>
    if t then .ok (.vbool false)
    else .error ("Cannot select field " ++ field ++ " from null")
  | .vmap es, field, t =>
    if t then .ok (.vbool (objGet (.vmap es) field).isSome)
    else
      match objGet (.vmap es) field with
      | some v => .ok v
      | none => .error ("Field " ++ field ++ " not found")
  | .vlist xs, field, t =>
    if t then .ok (.vbool (objGet (.vlist xs) field).isSome)
    else
      match objGet (.vlist xs) field with
      | some v => .ok v
      | none => .error ("Field " ++ field ++ " not found")
  | _, _, _ => .error "Cannot select field from non-object type"

/-- Math.trunc on the rational number model. -/
def ratTrunc (q : Rat) : Int :=
  if 0 ≤ q then q.floor else q.ceil

/-- visitIndex from src/src/interpreter/index.ts, after operand and
index have been evaluated: lists truncate a numeric index and bounds
check; maps coerce the index to its string representation and require
presence; strings index by character position. -/
def indexOn : Value → Value → Except String Value
  | .vnull, _ => .error "Cannot index null value"
  | .vlist xs, iv =>
    match iv with
    | .vnum n =>
      let i := ratTrunc n
      if i < 0 ∨ (xs.length : Int) ≤ i then .error "List index out of bounds"
      else
        match xs.get? i.toNat with
        | some v => .ok v
        | none => .error "List index out of bounds"
    | _ => .error "List index must be an integer"
  | .vmap es, iv =>
    match jlookup es (jsString iv) with
    | some v => .ok v
    | none => .error ("Map key not found: " ++ jsString iv)
  | .vstr s, iv =>
    match iv with
    | .vnum n =>
      let i := ratTrunc n
      if i < 0 ∨ (s.length : Int) ≤ i then .error "String index out of bounds"
      else
        match s.data.get? i.toNat with
        | some c => .ok (.vstr (String.singleton c))
        | none => .error "String index out of bounds"
    | _ => .error "String index must be an integer"
  | _, _ => .error "Cannot index type"

/-- visitUnary from src/src/interpreter/index.ts: NOT requires boolean,
negation requires numeric. -/
def unaryOp : UnaryOp → Value → Except String Value
  | .notOp, .vbool b => .ok (.vbool (!b))
  | .notOp, _ => .error "NOT operator requires boolean operand"
  | .negate, .vnum n => .ok (.vnum (-n))
  | .negate, _ => .error "Negation requires numeric operand"

/-- String repetition (String.prototype.repeat with a non-negative
truncated count). -/
def strRepeat (s : String) (n : Nat) : String :=
  String.join (List.replicate n s)

/-- Number of iterations of the array-repetition loop
`for i = 0; i < right; i++`: zero for a non-positive bound, otherwise
the ceiling. -/
def repCount (q : Rat) : Nat :=
  if q ≤ 0 then 0 else q.ceil.toNat

/-- The JS `%` remainder (same sign as the dividend). -/
def jsMod (a b : Rat) : Rat :=
  a - b * (ratTrunc (a / b) : Rat)

/-- Character-list prefix test (needle first). -/
def listPrefixOf : List Char → List Char → Bool
  | [], _ => true
  | _ :: _, [] => false
  | c :: cs, d :: ds => c = d && listPrefixOf cs ds

/-- Character-list containment test (needle first), modelling
String.prototype.includes. -/
def listInfixOf (needle : List Char) : List Char → Bool
  | [] => listPrefixOf needle []
  | c :: rest => listPrefixOf needle (c :: rest) || listInfixOf needle rest

/-- The switch of visitBinary from src/src/interpreter/index.ts for the
non-logical operators (logicalAnd and logicalOr are handled before the
operands are both evaluated; their rows here model the unreachable
switch default).  add: string concatenation when either side is a
string, list concatenation, numeric addition; subtract: numeric only;
multiply: numeric, string repetition (negative count is a RangeError),
list repetition; divide and modulo: numeric only with zero-divisor
check; equal and notEqual via deepEquals; the four comparisons via
compare; inOp: list membership by deep equality, object membership by
coerced key, string containment. -/
def binaryOp : BinaryOp → Value → Value → Except String Value
  | .add, a, b =>
    match a, b with
    | .vstr _, _ => .ok (.vstr (jsString a ++ jsString b))
    | _, .vstr _ => .ok (.vstr (jsString a ++ jsString b))
    | .vlist xs, .vlist ys => .ok (.vlist (xs ++ ys))
    | .vnum x, .vnum y => .ok (.vnum (x + y))
    | _, _ => .error "Invalid operands for addition"
  | .subtract, a, b =>
    match a, b with
    | .vnum x, .vnum y => .ok (.vnum (x - y))
    | _, _ => .error "Subtraction requires numeric operands"
  | .multiply, a, b =>
    match a, b with
    | .vnum x, .vnum y => .ok (.vnum (x * y))
    | .vstr s, .vnum y =>
      if y < 0 then .error "Invalid count value"
      else .ok (.vstr (strRepeat s (ratTrunc y).toNat))
    | .vlist xs, .vnum y => .ok (.vlist (List.flatten (List.replicate (repCount y) xs)))
    | _, _ => .error "Invalid operands for multiplication"
  | .divide, a, b =>
    match a, b with
    | .vnum x, .vnum y =>
      if y = 0 then .error "Division by zero" else .ok (.vnum (x / y))
    | _, _ => .error "Division requires numeric operands"
  | .modulo, a, b =>
    match a, b with
    | .vnum x, .vnum y =>
      if y = 0 then .error "Modulo by zero" else .ok (.vnum (jsMod x y))
    | _, _ => .error "Modulo requires integer operands"
  | .equal, a, b => .ok (.vbool (deepEquals a b))
  | .notEqual, a, b => .ok (.vbool (!deepEquals a b))
  | .less, a, b => (compare a b).map (fun c => .vbool (decide (c < 0)))
  | .lessEqual, a, b => (compare a b).map (fun c => .vbool (decide (c ≤ 0)))
  | .greater, a, b => (compare a b).map (fun c => .vbool (decide (0 < c)))
  | .greaterEqual, a, b => (compare a b).map (fun c => .vbool (decide (0 ≤ c)))
  | .inOp, a, b =>
    match b with
    | .vlist xs => .ok (.vbool (containsInArray xs a))
    | .vmap es => .ok (.vbool (jhas es (jsString a)))
    | .vstr t =>
      match a with
      | .vstr s => .ok (.vbool (listInfixOf s.data t.data))
      | _ => .error "IN operator requires list, map, or string on right side"
    | _ => .error "IN operator requires list, map, or string on right side"
  | .logicalAnd, _, _ => .error "Unknown binary operator"
  | .logicalOr, _, _ => .error "Unknown binary operator"

/-- The host function registry interface from
src/src/functions/functions.ts, consumed by the interpreter for
non-macro calls. -/
structure Functions where
  callFunction : String → List Value → Except String Value
  callMethod : Value → String → List Value → Except String Value

/-- An evaluation outcome paired with the variable environment after
the call (the source interpreter mutates one environment in place; the
model threads it explicitly, through errors as well). -/
abbrev EvalOut := Except String Value × Env

mutual

/-- Interpreter.evaluate from src/src/interpreter/index.ts, with an
explicit fuel bound on recursion depth and the mutable environment
threaded through every step.  Structure mirrors the visitor methods:
literals return their value, identifiers look up the environment,
select with a null operand targets the environment itself, macro calls
dispatch to the per-macro loops with save and restore of the loop
variable around them, logical operators short-circuit before the right
operand is evaluated, the conditional evaluates only the chosen
branch. -/
def eval (F : Functions) : Nat → Expr → Env → EvalOut
  | 0, _, env => (.error "out of fuel", env)
  | fuel + 1, e, env =>
    match e with
    | .literal v _ => (.ok v, env)
    | .identifier name =>
      match jlookup env name with
      | some v => (.ok v, env)
      | none => (.error ("Undefined variable: " ++ name), env)
    | .select operand field t =>
      match operand with
      | none => (selectField (.vmap env) field t, env)
      | some oe =>
        match eval F fuel oe env with
        | (.error msg, env1) => (.error msg, env1)
        | (.ok target, env1) => (selectField target field t, env1)
    | .index oe ie =>
      match eval F fuel oe env with
      | (.error msg, env1) => (.error msg, env1)
      | (.ok ov, env1) =>
        match eval F fuel ie env1 with
        | (.error msg, env2) => (.error msg, env2)
        | (.ok iv, env2) => (indexOn ov iv, env2)
    | .call target fname args mflag =>
      match mflag, target with
      | true, some tgt =>
        match eval F fuel tgt env with
        | (.error msg, env1) => (.error msg, env1)
        | (.ok tv, env1) =>
          match args with
          | [] => (.error ("Macro " ++ fname ++ " requires arguments"), env1)
          | a0 :: rest =>
            match a0 with
            | .identifier varName =>
              match rest with
              | [] =>
                (.error ("Macro " ++ fname ++ " requires an expression argument"), env1)
              | body :: _ =>
                match tv with
                | .vlist items =>
                  let saved := jlookup env1 varName
                  let out :=
                    match fname with
                    | "map" => macroMapGo F fuel body varName items env1 []
                    | "filter" => macroFilterGo F fuel body varName items env1 []
                    | "all" => macroAllGo F fuel body varName items env1
                    | "exists" => macroExistsGo F fuel body varName items env1
                    | "existsOne" => macroExistsOneGo F fuel body varName items env1 0
                    | _ => (.error ("Unknown macro function: " ++ fname), env1)
                  (out.1, restoreVar out.2 varName saved)
                | _ => (.error ("Macro " ++ fname ++ " requires a list target"), env1)
            | _ =>
              (.error ("First argument to macro " ++ fname ++
                " must be a variable name"), env1)
      | _, _ =>
        match evalArgs F fuel args env with
        | (.error msg, env1) => (.error msg, env1)
        | (.ok vs, env1) =>
          match target with
          | some tgt =>
            match eval F fuel tgt env1 with
            | (.error msg, env2) => (.error msg, env2)
            | (.ok tv, env2) => (F.callMethod tv fname vs, env2)
          | none => (F.callFunction fname vs, env1)
    | .listExpr elems =>
      match evalArgs F fuel elems env with
      | (.error msg, env1) => (.error msg, env1)
      | (.ok vs, env1) => (.ok (.vlist vs), env1)
    | .mapExpr entries =>
      match evalEntries F fuel entries env [] with
      | (.error msg, env1) => (.error msg, env1)
      | (.ok m, env1) => (.ok (.vmap m), env1)
    | .struct _ fields =>
      match evalFields F fuel fields env [] with
      | (.error msg, env1) => (.error msg, env1)
      | (.ok m, env1) => (.ok (.vmap m), env1)
    | .unary op oe =>
      match eval F fuel oe env with
      | (.error msg, env1) => (.error msg, env1)
      | (.ok v, env1) => (unaryOp op v, env1)
    | .binary op l r =>
      match op with
      | .logicalAnd =>
        match eval F fuel l env with
        | (.error msg, env1) => (.error msg, env1)
        | (.ok lv, env1) =>
          if isTrueV lv then
            match eval F fuel r env1 with
            | (.error msg, env2) => (.error msg, env2)
            | (.ok rv, env2) => (.ok (.vbool (isTrueV rv)), env2)
          else (.ok (.vbool false), env1)
      | .logicalOr =>
        match eval F fuel l env with
        | (.error msg, env1) => (.error msg, env1)
        | (.ok lv, env1) =>
          if isTrueV lv then (.ok (.vbool true), env1)
          else
            match eval F fuel r env1 with
            | (.error msg, env2) => (.error msg, env2)
            | (.ok rv, env2) => (.ok (.vbool (isTrueV rv)), env2)
      | _ =>
        match eval F fuel l env with
        | (.error msg, env1) => (.error msg, env1)
        | (.ok lv, env1) =>
          match eval F fuel r env1 with
          | (.error msg, env2) => (.error msg, env2)
          | (.ok rv, env2) => (binaryOp op lv rv, env2)
    | .conditional c t o =>
      match eval F fuel c env with
      | (.error msg, env1) => (.error msg, env1)
      | (.ok cv, env1) =>
        if isTrueV cv then eval F fuel t env1 else eval F fuel o env1

/-- Left-to-right evaluation of an expression list (call arguments and
list-literal elements). -/
def evalArgs (F : Functions) : Nat → List Expr → Env → Except String (List Value) × Env
  | 0, _, env => (.error "out of fuel", env)
  | _ + 1, [], env => (.ok [], env)
  | fuel + 1, e :: rest, env =>
    match eval F fuel e env with
    | (.error msg, env1) => (.error msg, env1)
    | (.ok v, env1) =>
      match evalArgs F fuel rest env1 with
      | (.error msg, env2) => (.error msg, env2)
      | (.ok vs, env2) => (.ok (v :: vs), env2)

/-- visitMap entry loop: evaluate key then value, coerce the key with
the JS string conversion, and assign into the object being built. -/
def evalEntries (F : Functions) :
    Nat → List (Expr × Expr) → Env → List (String × Value) →
    Except String (List (String × Value)) × Env
  | 0, _, env, _ => (.error "out of fuel", env)
  | _ + 1, [], env, acc => (.ok acc, env)
  | fuel + 1, (ke, ve) :: rest, env, acc =>
    match eval F fuel ke env with
    | (.error msg, env1) => (.error msg, env1)
    | (.ok kv, env1) =>
      match eval F fuel ve env1 with
      | (.error msg, env2) => (.error msg, env2)
      | (.ok vv, env2) => evalEntries F fuel rest env2 (jset acc (jsString kv) vv)

/-- visitStruct field loop: field names are string literals in the AST
and are assigned directly. -/
def evalFields (F : Functions) :
    Nat → List (String × Expr) → Env → List (String × Value) →
    Except String (List (String × Value)) × Env
  | 0, _, env, _ => (.error "out of fuel", env)
  | _ + 1, [], env, acc => (.ok acc, env)
  | fuel + 1, (fname, ve) :: rest, env, acc =>
    match eval F fuel ve env with
    | (.error msg, env1) => (.error msg, env1)
    | (.ok vv, env1) => evalFields F fuel rest env1 (jset acc fname vv)

/-- map macro loop: bind the loop variable to each element, evaluate the
body, collect the results. -/
def macroMapGo (F : Functions) :
    Nat → Expr → String → List Value → Env → List Value → EvalOut
  | 0, _, _, _, env, _ => (.error "out of fuel", env)
  | _ + 1, _, _, [], env, acc => (.ok (.vlist acc), env)
  | fuel + 1, body, varName, item :: rest, env, acc =>
    match eval F fuel body (jset env varName item) with
    | (.error msg, env1) => (.error msg, env1)
    | (.ok r, env1) => macroMapGo F fuel body varName rest env1 (acc ++ [r])

/-- filter macro loop: keep the elements whose predicate evaluates to
exactly boolean true. -/
def macroFilterGo (F : Functions) :
    Nat → Expr → String → List Value → Env → List Value → EvalOut
  | 0, _, _, _, env, _ => (.error "out of fuel", env)
  | _ + 1, _, _, [], env, acc => (.ok (.vlist acc), env)
  | fuel + 1, body, varName, item :: rest, env, acc =>
    match eval F fuel body (jset env varName item) with
    | (.error msg, env1) => (.error msg, env1)
    | (.ok r, env1) =>
      macroFilterGo F fuel body varName rest env1
        (if isTrueV r then acc ++ [item] else acc)

/-- all macro loop: false at the first predicate that is not exactly
true, vacuously true on the empty list. -/
def macroAllGo (F : Functions) : Nat → Expr → String → List Value → Env → EvalOut
  | 0, _, _, _, env => (.error "out of fuel", env)
  | _ + 1, _, _, [], env => (.ok (.vbool true), env)
  | fuel + 1, body, varName, item :: rest, env =>
    match eval F fuel body (jset env varName item) with
    | (.error msg, env1) => (.error msg, env1)
    | (.ok r, env1) =>
      if isTrueV r then macroAllGo F fuel body varName rest env1
      else (.ok (.vbool false), env1)

/-- exists macro loop: true at the first predicate that is exactly
true, false on the empty list. -/
def macroExistsGo (F : Functions) : Nat → Expr → String → List Value → Env → EvalOut
  | 0, _, _, _, env => (.error "out of fuel", env)
  | _ + 1, _, _, [], env => (.ok (.vbool false), env)
  | fuel + 1, body, varName, item :: rest, env =>
    match eval F fuel body (jset env varName item) with
    | (.error msg, env1) => (.error msg, env1)
    | (.ok r, env1) =>
      if isTrueV r then (.ok (.vbool true), env1)
      else macroExistsGo F fuel body varName rest env1

/-- existsOne macro loop: count predicates that are exactly true,
return false the moment the count exceeds one, otherwise report whether
the final count is exactly one. -/
def macroExistsOneGo (F : Functions) :
    Nat → Expr → String → List Value → Env → Nat → EvalOut
  | 0, _, _, _, env, _ => (.error "out of fuel", env)
  | _ + 1, _, _, [], env, count => (.ok (.vbool (count == 1)), env)
  | fuel + 1, body, varName, item :: rest, env, count =>
    match eval F fuel body (jset env varName item) with
    | (.error msg, env1) => (.error msg, env1)
    | (.ok r, env1) =>
      if isTrueV r then
        if count + 1 > 1 then (.ok (.vbool false), env1)
        else macroExistsOneGo F fuel body varName rest env1 (count + 1)
      else macroExistsOneGo F fuel body varName rest env1 count

end

/-- The object-spread copy in Program.evaluate
(`new Interpreter({...variables}, ...)`): own entries are assigned in
order into a fresh object. -/
def spreadCopy (vars : Env) : Env :=
  vars.foldl (fun acc kv => jset acc kv.1 kv.2) []

/-- Program.evaluate from src/src/program.ts: build a fresh interpreter
over a spread copy of the caller bindings and evaluate the compiled
AST.  The second component is the interpreter environment when
evaluation finishes. -/
def programEvaluate (F : Functions) (fuel : Nat) (ast : Expr) (vars : Env) : EvalOut :=
  eval F fuel ast (spreadCopy vars)

/-- Token kinds from the lexer (src/unnamed/part_002, TokenType enum). -/
inductive TokenType where
  | NULL
  | TRUE
  | FALSE
  | INT
  | UINT
  | DOUBLE
  | STRING
  | BYTES
  | IDENTIFIER
  | PLUS
  | MINUS
  | STAR
  | SLASH
  | PERCENT
  | EQ
  | NE
  | LT
  | LE
  | GT
  | GE
  | LOGICAL_AND
  | LOGICAL_OR
  | BANG
  | IN
  | LPAREN
  | RPAREN
  | LBRACKET
  | RBRACKET
  | LBRACE
  | RBRACE
  | DOT
  | COMMA
  | COLON
  | QUESTION
  | EOF
deriving Repr, DecidableEq

/-- Positioned token (1-based line and column). -/
structure Token where
  type : TokenType
  value : String
  line : Nat
  col : Nat
deriving Repr, DecidableEq

/-- Default token produced when reading past the end of the buffered
token stream (the source lexer keeps returning EOF at end of input; the
position fields of this placeholder are never inspected). -/
def eofToken : Token := ⟨.EOF, "", 0, 0⟩

/-- Parser state: the current token plus the not-yet-consumed remainder
of the token stream (the source holds a Lexer and uses next and peek;
the model replays the same interface over a token list). -/
structure ParserState where
  current : Token
  rest : List Token
deriving Repr, DecidableEq

/-- Parser.advance: pull the next token from the stream. -/
def advance (st : ParserState) : ParserState :=
  ⟨st.rest.headD eofToken, st.rest.tail⟩

/-- Parser.peekAhead(n) = Lexer.peek(n): the n-th upcoming token after
the current one, 1-indexed, without consuming. -/
def peekAhead (st : ParserState) (n : Nat) : Token :=
  st.rest.getD (n - 1) eofToken

/-- Parser.expect: require the given token type and consume it. -/
def expectTok (ty : TokenType) (st : ParserState) : Except String ParserState :=
  if st.current.type = ty then .ok (advance st) else .error "Expected token of another type"

/-- Parser.expectIdentifier: require an identifier, returning its
text. -/
def expectIdentTok (st : ParserState) : Except String (String × ParserState) :=
  if st.current.type = .IDENTIFIER then .ok (st.current.value, advance st)
  else .error "Expected identifier"

/-- The MACRO_METHODS set from src/src/parser/parser.ts. -/
def macroMethod (s : String) : Bool :=
  s = "map" || s = "filter" || s = "all" || s = "exists" || s = "existsOne"

/-- Parser.isRelationalOp. -/
def isRelationalOp : TokenType → Bool
  | .LT | .LE | .GT | .GE | .EQ | .NE | .IN => true
  | _ => false

/-- Parser.toBinaryOp (the default branch throws in the source; it is
only called on relational token types). -/
def toBinaryOpE : TokenType → Except String BinaryOp
  | .LT => .ok .less
  | .LE => .ok .lessEqual
  | .GT => .ok .greater
  | .GE => .ok .greaterEqual
  | .EQ => .ok .equal
  | .NE => .ok .notEqual
  | .IN => .ok .inOp
  | _ => .error "Unknown relational operator"

/-- Parser.isLiteralToken. -/
def isLiteralToken : TokenType → Bool
  | .NULL | .TRUE | .FALSE | .INT | .UINT | .DOUBLE | .STRING | .BYTES => true
  | _ => false

/-- substring(a, b) on character lists (end exclusive). -/
def slice (cs : List Char) (a b : Nat) : List Char :=
  (cs.drop a).take (b - a)

/-- Numeric value of a decimal digit character. -/
def digitVal (c : Char) : Nat := c.toNat - '0'.toNat

/-- Lexer.isHexDigit. -/
def isHexDigitCh (c : Char) : Bool :=
  ('0' ≤ c && c ≤ '9') || ('a' ≤ c && c ≤ 'f') || ('A' ≤ c && c ≤ 'F')

/-- Numeric value of a hexadecimal digit character. -/
def hexVal (c : Char) : Nat :=
  if '0' ≤ c && c ≤ '9' then c.toNat - '0'.toNat
  else if 'a' ≤ c && c ≤ 'f' then c.toNat - 'a'.toNat + 10
  else c.toNat - 'A'.toNat + 10

/-- JS parseInt digit loop with radix 10: consume leading decimal
digits, ignore the rest.  (parseInt of a string with no leading digit
is NaN; that case is unreachable from lexer-produced token text and is
modelled as 0.) -/
def decGo : List Char → Nat → Nat
  | [], acc => acc
  | c :: rest, acc => if c.isDigit then decGo rest (acc * 10 + digitVal c) else acc

/-- JS parseInt digit loop with radix 16. -/
def hexGo : List Char → Nat → Nat
  | [], acc => acc
  | c :: rest, acc => if isHexDigitCh c then hexGo rest (acc * 16 + hexVal c) else acc

/-- Signed decimal parseInt (the lexer never emits a sign inside a
numeric token, but parseInt itself accepts one). -/
def parseIntDec (cs : List Char) : Int :=
  match cs with
  | '-' :: rest => -(decGo rest 0 : Int)
  | '+' :: rest => (decGo rest 0 : Int)
  | _ => (decGo cs 0 : Int)

/-- Parser.parseIntLiteral: hexadecimal with 0x/0X prefix (optionally
negated — dead code for lexer-produced tokens), otherwise decimal. -/
def parseIntLit (s : String) : Rat :=
  let cs := s.data
  if listPrefixOf "-0x".data cs || listPrefixOf "-0X".data cs then
    (-(hexGo (cs.drop 3) 0 : Int) : Int)
  else if listPrefixOf "0x".data cs || listPrefixOf "0X".data cs then
    ((hexGo (cs.drop 2) 0 : Int) : Int)
  else
    (parseIntDec cs : Int)

/-- Parser.parseUintLiteral: strip the u/U suffix, then hexadecimal or
decimal. -/
def parseUintLit (s : String) : Rat :=
  let cs := s.data.take (s.data.length - 1)
  if listPrefixOf "0x".data cs || listPrefixOf "0X".data cs then
    ((hexGo (cs.drop 2) 0 : Int) : Int)
  else
    (parseIntDec cs : Int)

/-- Leading decimal digits: value, digit count and the remaining
characters. -/
def takeDigits : List Char → Nat → Nat → Nat × Nat × List Char
  | [], acc, count => (acc, count, [])
  | c :: rest, acc, count =>
    if c.isDigit then takeDigits rest (acc * 10 + digitVal c) (count + 1)
    else (acc, count, c :: rest)

/-- JS parseFloat restricted to the shapes the lexer produces for
DOUBLE tokens: digits, optional fraction, optional exponent. -/
def parseFloatLit (s : String) : Rat :=
  let cs := s.data
  let (neg, cs1) := match cs with
    | '-' :: rest => (true, rest)
    | '+' :: rest => (false, rest)
    | _ => (false, cs)
  let (ip, _, cs2) := takeDigits cs1 0 0
  let (fp, fk, cs3) := match cs2 with
    | '.' :: rest => takeDigits rest 0 0
    | _ => (0, 0, cs2)
  let ex : Int := match cs3 with
    | 'e' :: rest | 'E' :: rest =>
      match rest with
      | '-' :: r2 => -((takeDigits r2 0 0).1 : Int)
      | '+' :: r2 => ((takeDigits r2 0 0).1 : Int)
      | _ => ((takeDigits rest 0 0).1 : Int)
    | _ => 0
  let mag : Rat := ((ip : Rat) + (fp : Rat) / (10 : Rat) ^ fk) * (10 : Rat) ^ ex
  if neg then -mag else mag

/-- Parser.unescapeString transcribed over character lists.  Escape
sequences with malformed or out-of-range payloads fall back to code
point zero (the JS fromCharCode and fromCodePoint corners are outside
the model).  The source advances one position past an unrecognized
escape and re-scans the following character; since that character is
never a backslash in those branches, the re-scan always emits it
directly, which is inlined here to keep the recursion structural. -/
def unescapeGo : Nat → List Char → List Char
  | 0, rest => rest
  | _ + 1, [] => []
  | fuel + 1, '\\' :: rest =>
    match rest with
    | [] => ['\\']
    | next :: rest2 =>
      if next = '\\' then '\\' :: unescapeGo fuel rest2
      else if next = '"' then '"' :: unescapeGo fuel rest2
      else if next = '\'' then '\'' :: unescapeGo fuel rest2
      else if next = '`' then '`' :: unescapeGo fuel rest2
      else if next = '?' then '?' :: unescapeGo fuel rest2
      else if next = 'a' then '\u0007' :: unescapeGo fuel rest2
      else if next = 'b' then '\u0008' :: unescapeGo fuel rest2
      else if next = 'f' then '\u000C' :: unescapeGo fuel rest2
      else if next = 'n' then '\n' :: unescapeGo fuel rest2
      else if next = 'r' then '\r' :: unescapeGo fuel rest2
      else if next = 't' then '\t' :: unescapeGo fuel rest2
      else if next = 'v' then '\u000B' :: unescapeGo fuel rest2
      else if next = 'x' then
        match rest2 with
        | h1 :: h2 :: rest3 => Char.ofNat (hexGo [h1, h2] 0) :: unescapeGo fuel rest3
        | _ => '\\' :: next :: unescapeGo fuel rest2
      else if next = 'u' then
        match rest2 with
        | h1 :: h2 :: h3 :: h4 :: rest3 =>
          Char.ofNat (hexGo [h1, h2, h3, h4] 0) :: unescapeGo fuel rest3
        | _ => '\\' :: next :: unescapeGo fuel rest2
      else if next = 'U' then
        match rest2 with
        | h1 :: h2 :: h3 :: h4 :: h5 :: h6 :: h7 :: h8 :: rest3 =>
          Char.ofNat (hexGo [h1, h2, h3, h4, h5, h6, h7, h8] 0) :: unescapeGo fuel rest3
        | _ => '\\' :: next :: unescapeGo fuel rest2
      else
        match rest2 with
        | d2 :: d3 :: rest3 =>
          if '0' ≤ next && next ≤ '3' && '0' ≤ d2 && d2 ≤ '7' && '0' ≤ d3 && d3 ≤ '7' then
            Char.ofNat ((digitVal next * 8 + digitVal d2) * 8 + digitVal d3) :: unescapeGo fuel rest3
          else '\\' :: next :: unescapeGo fuel (d2 :: d3 :: rest3)
        | _ => '\\' :: next :: unescapeGo fuel rest2
  | fuel + 1, c :: rest => c :: unescapeGo fuel rest

/-- Parser.unescapeString on strings.  One unit of fuel per input
character always suffices, since every iteration of the source loop
consumes at least one character. -/
def unescapeString (s : String) : String :=
  String.mk (unescapeGo s.data.length s.data)

/-- Parser.parseStringLiteral: strip the raw prefix and the quote
delimiters, unescaping unless the literal is raw. -/
def parseStringLit (s : String) : String :=
  let cs := s.data
  let n := cs.length
  let isRaw := listPrefixOf ['r'] cs || listPrefixOf ['R'] cs
  if isRaw && (listPrefixOf "\"\"\"".data (cs.drop 1) || listPrefixOf "\'\'\'".data (cs.drop 1)) then
    String.mk (slice cs 4 (n - 3))
  else if listPrefixOf "\"\"\"".data cs || listPrefixOf "\'\'\'".data cs then
    unescapeString (String.mk (slice cs 3 (n - 3)))
  else if isRaw then
    String.mk (slice cs 2 (n - 1))
  else
    unescapeString (String.mk (slice cs 1 (n - 1)))

/-- Parser.parseBytesLiteral: strip the b prefix and quotes, then
unescape. -/
def parseBytesLit (s : String) : String :=
  unescapeString (String.mk (slice s.data 2 (s.data.length - 1)))

/-- Parser.parseLiteral: build a Literal node from the current token
(which is consumed). -/
def parseLiteralTok (st : ParserState) : Except String (Expr × ParserState) :=
  let t := st.current
  let st1 := advance st
  match t.type with
  | .NULL => .ok (.literal .vnull .nullValue, st1)
  | .TRUE => .ok (.literal (.vbool true) .boolType, st1)
  | .FALSE => .ok (.literal (.vbool false) .boolType, st1)
  | .INT => .ok (.literal (.vnum (parseIntLit t.value)) .intType, st1)
  | .UINT => .ok (.literal (.vnum (parseUintLit t.value)) .uintType, st1)
  | .DOUBLE => .ok (.literal (.vnum (parseFloatLit t.value)) .doubleType, st1)
  | .STRING => .ok (.literal (.vstr (parseStringLit t.value)) .stringType, st1)
  | .BYTES => .ok (.literal (.vstr (parseBytesLit t.value)) .bytesType, st1)
  | _ => .error "Not a literal"

/-- Tail of Parser.isQualifiedStructLiteral: after the first
identifier, skip repeating dot-identifier pairs and require an opening
brace (peeks beyond the stream read as EOF). -/
def qualTailCheck : List Token → Bool
  | [] => false
  | t :: rest =>
    if t.type = .DOT then
      match rest with
      | [] => false
      | u :: rest2 => if u.type = .IDENTIFIER then qualTailCheck rest2 else false
    else t.type = .LBRACE

/-- Parser.isQualifiedStructLiteral: pure lookahead for the pattern
dot identifier (dot identifier)* brace. -/
def isQualStructLit (st : ParserState) : Bool :=
  match st.rest with
  | [] => false
  | t :: rest => t.type = .IDENTIFIER && qualTailCheck rest

mutual

/-- Parser.parseExpr from src/src/parser/parser.ts: a conditional-or
expression optionally followed by a right-associative ternary. -/
def parseExpr : Nat → ParserState → Except String (Expr × ParserState)
  | 0, _ => .error "parser out of fuel"
  | fuel + 1, st =>
    match parseConditionalOr fuel st with
    | .error e => .error e
    | .ok (condition, st1) =>
      if st1.current.type = .QUESTION then
        match parseConditionalOr fuel (advance st1) with
        | .error e => .error e
        | .ok (thenE, st2) =>
          match expectTok .COLON st2 with
          | .error e => .error e
          | .ok st3 =>
            match parseExpr fuel st3 with
            | .error e => .error e
            | .ok (otherwiseE, st4) => .ok (.conditional condition thenE otherwiseE, st4)
      else .ok (condition, st1)

/-- Parser.parseConditionalOr: left fold of logical-or. -/
def parseConditionalOr : Nat → ParserState → Except String (Expr × ParserState)
  | 0, _ => .error "parser out of fuel"
  | fuel + 1, st =>
    match parseConditionalAnd fuel st with
    | .error e => .error e
    | .ok (left, st1) => parseCondOrGo fuel left st1

/-- While loop of parseConditionalOr. -/
def parseCondOrGo : Nat → Expr → ParserState → Except String (Expr × ParserState)
  | 0, _, _ => .error "parser out of fuel"
  | fuel + 1, left, st =>
    if st.current.type = .LOGICAL_OR then
      match parseConditionalAnd fuel (advance st) with
      | .error e => .error e
      | .ok (right, st1) => parseCondOrGo fuel (.binary .logicalOr left right) st1
    else .ok (left, st)

/-- Parser.parseConditionalAnd: left fold of logical-and. -/
def parseConditionalAnd : Nat → ParserState → Except String (Expr × ParserState)
  | 0, _ => .error "parser out of fuel"
  | fuel + 1, st =>
    match parseRelation fuel st with
    | .error e => .error e
    | .ok (left, st1) => parseCondAndGo fuel left st1

/-- While loop of parseConditionalAnd. -/
def parseCondAndGo : Nat → Expr → ParserState → Except String (Expr × ParserState)
  | 0, _, _ => .error "parser out of fuel"
  | fuel + 1, left, st =>
    if st.current.type = .LOGICAL_AND then
      match parseRelation fuel (advance st) with
      | .error e => .error e
      | .ok (right, st1) => parseCondAndGo fuel (.binary .logicalAnd left right) st1
    else .ok (left, st)

/-- Parser.parseRelation: left fold of the relational operators. -/
def parseRelation : Nat → ParserState → Except String (Expr × ParserState)
  | 0, _ => .error "parser out of fuel"
  | fuel + 1, st =>
    match parseAddition fuel st with
    | .error e => .error e
    | .ok (left, st1) => parseRelationGo fuel left st1

/-- While loop of parseRelation. -/
def parseRelationGo : Nat → Expr → ParserState → Except String (Expr × ParserState)
  | 0, _, _ => .error "parser out of fuel"
  | fuel + 1, left, st =>
    if isRelationalOp st.current.type then
      match toBinaryOpE st.current.type with
      | .error e => .error e
      | .ok op =>
        match parseAddition fuel (advance st) with
        | .error e => .error e
        | .ok (right, st1) => parseRelationGo fuel (.binary op left right) st1
    else .ok (left, st)

/-- Parser.parseAddition: left fold of plus and minus. -/
def parseAddition : Nat → ParserState → Except String (Expr × ParserState)
  | 0, _ => .error "parser out of fuel"
  | fuel + 1, st =>
    match parseMultiplication fuel st with
    | .error e => .error e
    | .ok (left, st1) => parseAdditionGo fuel left st1

/-- While loop of parseAddition. -/
def parseAdditionGo : Nat → Expr → ParserState → Except String (Expr × ParserState)
  | 0, _, _ => .error "parser out of fuel"
  | fuel + 1, left, st =>
    if st.current.type = .PLUS ∨ st.current.type = .MINUS then
      let op : BinaryOp := if st.current.type = .PLUS then .add else .subtract
      match parseMultiplication fuel (advance st) with
      | .error e => .error e
      | .ok (right, st1) => parseAdditionGo fuel (.binary op left right) st1
    else .ok (left, st)

/-- Parser.parseMultiplication: left fold of star, slash and
percent. -/
def parseMultiplication : Nat → ParserState → Except String (Expr × ParserState)
  | 0, _ => .error "parser out of fuel"
  | fuel + 1, st =>
    match parseUnary fuel st with
    | .error e => .error e
    | .ok (left, st1) => parseMultiplicationGo fuel left st1

/-- While loop of parseMultiplication. -/
def parseMultiplicationGo : Nat → Expr → ParserState → Except String (Expr × ParserState)
  | 0, _, _ => .error "parser out of fuel"
  | fuel + 1, left, st =>
    if st.current.type = .STAR ∨ st.current.type = .SLASH ∨ st.current.type = .PERCENT then
      let op : BinaryOp :=
        if st.current.type = .STAR then .multiply
        else if st.current.type = .SLASH then .divide
        else .modulo
      match parseUnary fuel (advance st) with
      | .error e => .error e
      | .ok (right, st1) => parseMultiplicationGo fuel (.binary op left right) st1
    else .ok (left, st)

/-- Parser.parseUnary: prefix bang and minus, right associative. -/
def parseUnary : Nat → ParserState → Except String (Expr × ParserState)
  | 0, _ => .error "parser out of fuel"
  | fuel + 1, st =>
    if st.current.type = .BANG then
      match parseUnary fuel (advance st) with
      | .error e => .error e
      | .ok (e, st1) => .ok (.unary .notOp e, st1)
    else if st.current.type = .MINUS then
      match parseUnary fuel (advance st) with
      | .error e => .error e
      | .ok (e, st1) => .ok (.unary .negate e, st1)
    else parseMember fuel st

/-- Parser.parseMember: a primary expression followed by a chain of
selections, method calls and index accesses. -/
def parseMember : Nat → ParserState → Except String (Expr × ParserState)
  | 0, _ => .error "parser out of fuel"
  | fuel + 1, st =>
    match parsePrimary fuel st with
    | .error e => .error e
    | .ok (e, st1) => parseMemberGo fuel e st1

/-- While loop of parseMember.  A method call is flagged as a macro
exactly when its name is one of the five macro method names. -/
def parseMemberGo : Nat → Expr → ParserState → Except String (Expr × ParserState)
  | 0, _, _ => .error "parser out of fuel"
  | fuel + 1, e, st =>
    if st.current.type = .DOT then
      match expectIdentTok (advance st) with
      | .error err => .error err
      | .ok (field, st1) =>
        if st1.current.type = .LPAREN then
          match parseExprList fuel (advance st1) with
          | .error err => .error err
          | .ok (args, st2) =>
            match expectTok .RPAREN st2 with
            | .error err => .error err
            | .ok st3 => parseMemberGo fuel (.call (some e) field args (macroMethod field)) st3
        else parseMemberGo fuel (.select (some e) field false) st1
    else if st.current.type = .LBRACKET then
      match parseExpr fuel (advance st) with
      | .error err => .error err
      | .ok (ie, st1) =>
        match expectTok .RBRACKET st1 with
        | .error err => .error err
        | .ok st2 => parseMemberGo fuel (.index e ie) st2
    else .ok (e, st)

/-- Parser.parsePrimary: literals, list and brace literals,
parenthesized expressions, leading-dot selection or call, identifiers
with optional call or struct literal. -/
def parsePrimary : Nat → ParserState → Except String (Expr × ParserState)
  | 0, _ => .error "parser out of fuel"
  | fuel + 1, st =>
    if isLiteralToken st.current.type then parseLiteralTok st
    else if st.current.type = .LBRACKET then parseListLiteral fuel st
    else if st.current.type = .LBRACE then parseMapOrStructLiteral fuel none st
    else if st.current.type = .LPAREN then
      match parseExpr fuel (advance st) with
      | .error e => .error e
      | .ok (e, st1) =>
        match expectTok .RPAREN st1 with
        | .error err => .error err
        | .ok st2 => .ok (e, st2)
    else if st.current.type = .DOT then
      match expectIdentTok (advance st) with
      | .error err => .error err
      | .ok (field, st1) =>
        if st1.current.type = .LPAREN then
          match parseExprList fuel (advance st1) with
          | .error err => .error err
          | .ok (args, st2) =>
            match expectTok .RPAREN st2 with
            | .error err => .error err
            | .ok st3 => .ok (.call none field args false, st3)
        else .ok (.select none field false, st1)
    else if st.current.type = .IDENTIFIER then
      let name := st.current.value
      let st1 := advance st
      if st1.current.type = .LPAREN then
        match parseExprList fuel (advance st1) with
        | .error err => .error err
        | .ok (args, st2) =>
          match expectTok .RPAREN st2 with
          | .error err => .error err
          | .ok st3 => .ok (.call none name args false, st3)
      else if st1.current.type = .DOT ∧ isQualStructLit st1 = true then
        match parseQualifiedIdent fuel name st1 with
        | .error err => .error err
        | .ok (qualified, st2) => parseMapOrStructLiteral fuel (some qualified) st2
      else if st1.current.type = .LBRACE then
        parseMapOrStructLiteral fuel (some name) st1
      else .ok (.identifier name, st1)
    else .error "Unexpected token"

/-- Parser.parseListLiteral: bracketed expression list with an
optional trailing comma. -/
def parseListLiteral : Nat → ParserState → Except String (Expr × ParserState)
  | 0, _ => .error "parser out of fuel"
  | fuel + 1, st =>
    match expectTok .LBRACKET st with
    | .error e => .error e
    | .ok st1 =>
      if st1.current.type = .RBRACKET then
        match expectTok .RBRACKET st1 with
        | .error e => .error e
        | .ok st2 => .ok (.listExpr [], st2)
      else
        match parseExprList fuel st1 with
        | .error e => .error e
        | .ok (elems, st2) =>
          let st3 := if st2.current.type = .COMMA then advance st2 else st2
          match expectTok .RBRACKET st3 with
          | .error e => .error e
          | .ok st4 => .ok (.listExpr elems, st4)

/-- Parser.parseMapOrStructLiteral: after the opening brace, an empty
literal is a struct exactly when a type name preceded it; otherwise the
first entry starting with an identifier immediately followed by a colon
(or a preceding type name) selects the struct form, and anything else
the map form.  Both forms allow one trailing comma. -/
def parseMapOrStructLiteral :
    Nat → Option String → ParserState → Except String (Expr × ParserState)
  | 0, _, _ => .error "parser out of fuel"
  | fuel + 1, typeName, st =>
    match expectTok .LBRACE st with
    | .error e => .error e
    | .ok st1 =>
      if st1.current.type = .RBRACE then
        let st2 := advance st1
        match typeName with
        | some tn => .ok (.struct (some tn) [], st2)
        | none => .ok (.mapExpr [], st2)
      else
        if (st1.current.type = .IDENTIFIER ∧ (peekAhead st1 1).type = .COLON) ∨
            typeName ≠ none then
          match parseFieldInits fuel st1 with
          | .error e => .error e
          | .ok (fields, st2) =>
            let st3 := if st2.current.type = .COMMA then advance st2 else st2
            match expectTok .RBRACE st3 with
            | .error e => .error e
            | .ok st4 => .ok (.struct typeName fields, st4)
        else
          match parseMapInits fuel st1 with
          | .error e => .error e
          | .ok (entries, st2) =>
            let st3 := if st2.current.type = .COMMA then advance st2 else st2
            match expectTok .RBRACE st3 with
            | .error e => .error e
            | .ok st4 => .ok (.mapExpr entries, st4)

/-- Parser.parseExprList: a possibly empty comma-separated expression
list (empty when the closing paren or bracket follows directly). -/
def parseExprList : Nat → ParserState → Except String (List Expr × ParserState)
  | 0, _ => .error "parser out of fuel"
  | fuel + 1, st =>
    if st.current.type = .RPAREN ∨ st.current.type = .RBRACKET then .ok ([], st)
    else
      match parseExpr fuel st with
      | .error e => .error e
      | .ok (e, st1) => parseExprListGo fuel [e] st1

/-- While loop of parseExprList (a comma directly followed by the
closing delimiter ends the list). -/
def parseExprListGo : Nat → List Expr → ParserState → Except String (List Expr × ParserState)
  | 0, _, _ => .error "parser out of fuel"
  | fuel + 1, acc, st =>
    if st.current.type = .COMMA then
      let st1 := advance st
      if st1.current.type = .RPAREN ∨ st1.current.type = .RBRACKET then .ok (acc, st1)
      else
        match parseExpr fuel st1 with
        | .error e => .error e
        | .ok (e, st2) => parseExprListGo fuel (acc ++ [e]) st2
    else .ok (acc, st)

/-- Parser.parseMapInits: one or more key-colon-value entries. -/
def parseMapInits : Nat → ParserState → Except String (List (Expr × Expr) × ParserState)
  | 0, _ => .error "parser out of fuel"
  | fuel + 1, st =>
    match parseMapInit fuel st with
    | .error e => .error e
    | .ok (entry, st1) => parseMapInitsGo fuel [entry] st1

/-- While loop of parseMapInits. -/
def parseMapInitsGo :
    Nat → List (Expr × Expr) → ParserState → Except String (List (Expr × Expr) × ParserState)
  | 0, _, _ => .error "parser out of fuel"
  | fuel + 1, acc, st =>
    if st.current.type = .COMMA then
      let st1 := advance st
      if st1.current.type = .RBRACE then .ok (acc, st1)
      else
        match parseMapInit fuel st1 with
        | .error e => .error e
        | .ok (entry, st2) => parseMapInitsGo fuel (acc ++ [entry]) st2
    else .ok (acc, st)

/-- Parser.parseMapInit: expression key, colon, expression value. -/
def parseMapInit : Nat → ParserState → Except String ((Expr × Expr) × ParserState)
  | 0, _ => .error "parser out of fuel"
  | fuel + 1, st =>
    match parseExpr fuel st with
    | .error e => .error e
    | .ok (key, st1) =>
      match expectTok .COLON st1 with
      | .error e => .error e
      | .ok st2 =>
        match parseExpr fuel st2 with
        | .error e => .error e
        | .ok (val, st3) => .ok ((key, val), st3)

/-- Parser.parseFieldInits: one or more field-name-colon-value
entries. -/
def parseFieldInits : Nat → ParserState → Except String (List (String × Expr) × ParserState)
  | 0, _ => .error "parser out of fuel"
  | fuel + 1, st =>
    match parseFieldInit fuel st with
    | .error e => .error e
    | .ok (field, st1) => parseFieldInitsGo fuel [field] st1

/-- While loop of parseFieldInits. -/
def parseFieldInitsGo :
    Nat → List (String × Expr) → ParserState →
    Except String (List (String × Expr) × ParserState)
  | 0, _, _ => .error "parser out of fuel"
  | fuel + 1, acc, st =>
    if st.current.type = .COMMA then
      let st1 := advance st
      if st1.current.type = .RBRACE then .ok (acc, st1)
      else
        match parseFieldInit fuel st1 with
        | .error e => .error e
        | .ok (field, st2) => parseFieldInitsGo fuel (acc ++ [field]) st2
    else .ok (acc, st)

/-- Parser.parseFieldInit: identifier field name, colon, expression
value. -/
def parseFieldInit : Nat → ParserState → Except String ((String × Expr) × ParserState)
  | 0, _ => .error "parser out of fuel"
  | fuel + 1, st =>
    match expectIdentTok st with
    | .error e => .error e
    | .ok (field, st1) =>
      match expectTok .COLON st1 with
      | .error e => .error e
      | .ok st2 =>
        match parseExpr fuel st2 with
        | .error e => .error e
        | .ok (val, st3) => .ok ((field, val), st3)

/-- Parser.parseQualifiedIdent: extend the first identifier with
dot-identifier segments. -/
def parseQualifiedIdent : Nat → String → ParserState → Except String (String × ParserState)
  | 0, _, _ => .error "parser out of fuel"
  | fuel + 1, acc, st =>
    if st.current.type = .DOT then
      match expectIdentTok (advance st) with
      | .error e => .error e
      | .ok (name, st1) => parseQualifiedIdent fuel (acc ++ "." ++ name) st1
    else .ok (acc, st)

end

/-- Parser.parse: parse one expression from a token stream and require
that only the EOF token remains. -/
def parseProgram (fuel : Nat) (ts : List Token) : Except String Expr :=
  let st : ParserState := ⟨ts.headD eofToken, ts.tail⟩
  match parseExpr fuel st with
  | .error e => .error e
  | .ok (e, st1) =>
    if st1.current.type = .EOF then .ok e
    else .error "Unexpected token after expression"

/-- Lexer scanning state from src/unnamed/part_002: character position
plus the 1-based line and column bookkeeping.  The input itself is
passed separately as a character list. -/
structure LexState where
  pos : Nat
  line : Nat
  col : Nat
deriving Repr, DecidableEq

/-- The initial lexer state. -/
def lexInit : LexState := ⟨0, 1, 1⟩

/-- Lexer.step: consume one character.  A carriage return also
consumes a directly following line feed, and both line terminators
advance the line exactly once and reset the column to 1; every other
character advances the column by one.  Reading past the end of the
input is a no-op. -/
def step (inp : List Char) (s : LexState) : LexState :=
  match inp.get? s.pos with
  | none => s
  | some ch =>
    if ch = '\r' then
      if inp.get? (s.pos + 1) = some '\n' then ⟨s.pos + 2, s.line + 1, 1⟩
      else ⟨s.pos + 1, s.line + 1, 1⟩
    else if ch = '\n' then ⟨s.pos + 1, s.line + 1, 1⟩
    else ⟨s.pos + 1, s.line, s.col + 1⟩

/-- Lexer.forward: n repetitions of step. -/
def forward (inp : List Char) : Nat → LexState → LexState
  | 0, s => s
  | n + 1, s => forward inp n (step inp s)

/-- Lexer.isDigit. -/
def isDigitCh (c : Char) : Bool := '0' ≤ c && c ≤ '9'

/-- Lexer.isLetter. -/
def isLetterCh (c : Char) : Bool := ('a' ≤ c && c ≤ 'z') || ('A' ≤ c && c ≤ 'Z')

/-- Lexer.whitespace: skip spaces, tabs, carriage returns and line
feeds. -/
def wsGo (inp : List Char) : Nat → LexState → LexState
  | 0, s => s
  | fuel + 1, s =>
    match inp.get? s.pos with
    | some c =>
      if c = ' ' ∨ c = '\t' ∨ c = '\n' ∨ c = '\r' then wsGo inp fuel (step inp s) else s
    | none => s

/-- Token text: substring of the input from the recorded start offset
to the current position. -/
def sliceTok (inp : List Char) (offset pos : Nat) : String :=
  String.mk (slice inp offset pos)

/-- Scanning loop of Lexer.string for the triple-quoted form: advance
until three matching quote characters in a row remain available and
close the token, failing when fewer than three characters remain. -/
def tripleGo (inp : List Char) (quote : Char) (line col offset : Nat) :
    Nat → LexState → Except String (Token × LexState)
  | 0, _ => .error "lexer out of fuel"
  | fuel + 1, s =>
    if s.pos + 2 < inp.length then
      if inp.get? s.pos = some quote ∧ inp.get? (s.pos + 1) = some quote ∧
          inp.get? (s.pos + 2) = some quote then
        let s1 := forward inp 3 s
        .ok (⟨.STRING, sliceTok inp offset s1.pos, line, col⟩, s1)
      else tripleGo inp quote line col offset fuel (step inp s)
    else .error "Unterminated triple-quoted string"

/-- Scanning loop of Lexer.string for the single-quoted form: a
matching quote closes the token; outside raw mode a backslash consumes
the following character as well. -/
def stringGo (inp : List Char) (quote : Char) (isRaw : Bool) (line col offset : Nat) :
    Nat → LexState → Except String (Token × LexState)
  | 0, _ => .error "lexer out of fuel"
  | fuel + 1, s =>
    match inp.get? s.pos with
    | none => .error "Unterminated string"
    | some ch =>
      if ch = quote then
        let s1 := step inp s
        .ok (⟨.STRING, sliceTok inp offset s1.pos, line, col⟩, s1)
      else if ch = '\\' ∧ isRaw = false ∧ s.pos + 1 < inp.length then
        stringGo inp quote isRaw line col offset fuel (forward inp 2 s)
      else stringGo inp quote isRaw line col offset fuel (step inp s)

/-- Lexer.string: optional raw prefix, then either the triple-quoted
or the single-quoted scanning loop. -/
def stringScan (inp : List Char) (line col offset : Nat) (fuel : Nat) (s : LexState) :
    Except String (Token × LexState) :=
  let (isRaw, s1) :=
    if inp.get? s.pos = some 'r' ∨ inp.get? s.pos = some 'R' then (true, step inp s)
    else (false, s)
  if s1.pos + 2 < inp.length ∧
      ((inp.get? s1.pos = some '"' ∧ inp.get? (s1.pos + 1) = some '"' ∧
        inp.get? (s1.pos + 2) = some '"') ∨
       (inp.get? s1.pos = some '\'' ∧ inp.get? (s1.pos + 1) = some '\'' ∧
        inp.get? (s1.pos + 2) = some '\'')) then
    match inp.get? s1.pos with
    | some quote => tripleGo inp quote line col offset fuel (forward inp 3 s1)
    | none => .error "Unterminated string"
  else
    match inp.get? s1.pos with
    | some quote => stringGo inp quote isRaw line col offset fuel (step inp s1)
    | none => .error "Unterminated string"

/-- Scanning loop of Lexer.bytes: like the non-raw string loop but
producing a BYTES token. -/
def bytesGo (inp : List Char) (quote : Char) (line col offset : Nat) :
    Nat → LexState → Except String (Token × LexState)
  | 0, _ => .error "lexer out of fuel"
  | fuel + 1, s =>
    match inp.get? s.pos with
    | none => .error "Unterminated bytes literal"
    | some ch =>
      if ch = quote then
        let s1 := step inp s
        .ok (⟨.BYTES, sliceTok inp offset s1.pos, line, col⟩, s1)
      else if ch = '\\' ∧ s.pos + 1 < inp.length then
        bytesGo inp quote line col offset fuel (forward inp 2 s)
      else bytesGo inp quote line col offset fuel (step inp s)

/-- Lexer.bytes: skip the b prefix, record the quote, scan. -/
def bytesScan (inp : List Char) (line col offset : Nat) (fuel : Nat) (s : LexState) :
    Except String (Token × LexState) :=
  let s1 := step inp s
  match inp.get? s1.pos with
  | some quote => bytesGo inp quote line col offset fuel (step inp s1)
  | none => .error "Unterminated bytes literal"

/-- Digit-skipping loop shared by the number scanner. -/
def digitsGo (inp : List Char) : Nat → LexState → LexState
  | 0, s => s
  | fuel + 1, s =>
    match inp.get? s.pos with
    | some c => if isDigitCh c then digitsGo inp fuel (step inp s) else s
    | none => s

/-- Hex-digit-skipping loop of the number scanner. -/
def hexDigitsGo (inp : List Char) : Nat → LexState → LexState
  | 0, s => s
  | fuel + 1, s =>
    match inp.get? s.pos with
    | some c => if isHexDigitCh c then hexDigitsGo inp fuel (step inp s) else s
    | none => s

/-- Lexer.number: hexadecimal with 0x/0X prefix (always integral, with
optional unsigned suffix), otherwise decimal digits with optional
fraction and exponent marking the literal as a double, and an optional
unsigned suffix on non-double literals. -/
def numberScan (inp : List Char) (line col offset : Nat) (fuel : Nat) (s : LexState) :
    Except String (Token × LexState) :=
  if inp.get? s.pos = some '0' ∧ s.pos + 1 < inp.length ∧
      (inp.get? (s.pos + 1) = some 'x' ∨ inp.get? (s.pos + 1) = some 'X') then
    let s1 := hexDigitsGo inp fuel (forward inp 2 s)
    if inp.get? s1.pos = some 'u' ∨ inp.get? s1.pos = some 'U' then
      let s2 := step inp s1
      .ok (⟨.UINT, sliceTok inp offset s2.pos, line, col⟩, s2)
    else .ok (⟨.INT, sliceTok inp offset s1.pos, line, col⟩, s1)
  else
    let s1 := digitsGo inp fuel s
    let (isDouble1, s2) :=
      if inp.get? s1.pos = some '.' then (true, digitsGo inp fuel (step inp s1))
      else (false, s1)
    let (isDouble2, s3) :=
      if inp.get? s2.pos = some 'e' ∨ inp.get? s2.pos = some 'E' then
        let s2a := step inp s2
        let s2b :=
          if inp.get? s2a.pos = some '+' ∨ inp.get? s2a.pos = some '-' then step inp s2a
          else s2a
        (true, digitsGo inp fuel s2b)
      else (isDouble1, s2)
    if isDouble2 = false ∧ (inp.get? s3.pos = some 'u' ∨ inp.get? s3.pos = some 'U') then
      let s4 := step inp s3
      .ok (⟨.UINT, sliceTok inp offset s4.pos, line, col⟩, s4)
    else
      .ok (⟨if isDouble2 then .DOUBLE else .INT, sliceTok inp offset s3.pos, line, col⟩, s3)

/-- Identifier-character loop of Lexer.identifier. -/
def identGo (inp : List Char) : Nat → LexState → LexState
  | 0, s => s
  | fuel + 1, s =>
    match inp.get? s.pos with
    | some c =>
      if isLetterCh c || isDigitCh c || c = '_' then identGo inp fuel (step inp s) else s
    | none => s

/-- Lexer keyword table (Lexer.typeOf): null, true, false and in are
reserved; everything else is a generic identifier. -/
def keywordType (value : String) : TokenType :=
  if value = "null" then .NULL
  else if value = "true" then .TRUE
  else if value = "false" then .FALSE
  else if value = "in" then .IN
  else .IDENTIFIER

/-- Lexer.identifier: scan the identifier characters and classify
keywords. -/
def identScan (inp : List Char) (line col offset : Nat) (fuel : Nat) (s : LexState) :
    Except String (Token × LexState) :=
  let s1 := identGo inp fuel s
  let value := sliceTok inp offset s1.pos
  .ok (⟨keywordType value, value, line, col⟩, s1)

/-- Dispatch part of Lexer.token, after whitespace skipping: emit EOF
at the end of input, otherwise look at the current character:
single-character tokens, the two-character operators, string and bytes
literals (including the raw prefix), numbers, identifiers; anything
else is a positioned syntax failure. -/
def tokenAt (inp : List Char) (fuel : Nat) (s : LexState) : Except String (Token × LexState) :=
  match inp.get? s.pos with
  | none => .ok (⟨.EOF, "", s.line, s.col⟩, s)
  | some ch =>
    if ch = '(' then .ok (⟨.LPAREN, String.singleton ch, s.line, s.col⟩, step inp s)
    else if ch = ')' then .ok (⟨.RPAREN, String.singleton ch, s.line, s.col⟩, step inp s)
    else if ch = '[' then .ok (⟨.LBRACKET, String.singleton ch, s.line, s.col⟩, step inp s)
    else if ch = ']' then .ok (⟨.RBRACKET, String.singleton ch, s.line, s.col⟩, step inp s)
    else if ch = '\x7b' then .ok (⟨.LBRACE, String.singleton ch, s.line, s.col⟩, step inp s)
    else if ch = '\x7d' then .ok (⟨.RBRACE, String.singleton ch, s.line, s.col⟩, step inp s)
    else if ch = ',' then .ok (⟨.COMMA, String.singleton ch, s.line, s.col⟩, step inp s)
    else if ch = '.' then .ok (⟨.DOT, String.singleton ch, s.line, s.col⟩, step inp s)
    else if ch = ':' then .ok (⟨.COLON, String.singleton ch, s.line, s.col⟩, step inp s)
    else if ch = '?' then .ok (⟨.QUESTION, String.singleton ch, s.line, s.col⟩, step inp s)
    else if ch = '+' then .ok (⟨.PLUS, String.singleton ch, s.line, s.col⟩, step inp s)
    else if ch = '*' then .ok (⟨.STAR, String.singleton ch, s.line, s.col⟩, step inp s)
    else if ch = '/' then .ok (⟨.SLASH, String.singleton ch, s.line, s.col⟩, step inp s)
    else if ch = '%' then .ok (⟨.PERCENT, String.singleton ch, s.line, s.col⟩, step inp s)
    else if ch = '&' ∧ inp.get? (s.pos + 1) = some '&' then
      .ok (⟨.LOGICAL_AND, "&&", s.line, s.col⟩, forward inp 2 s)
    else if ch = '|' ∧ inp.get? (s.pos + 1) = some '|' then
      .ok (⟨.LOGICAL_OR, "||", s.line, s.col⟩, forward inp 2 s)
    else if ch = '=' ∧ inp.get? (s.pos + 1) = some '=' then
      .ok (⟨.EQ, "==", s.line, s.col⟩, forward inp 2 s)
    else if ch = '!' ∧ inp.get? (s.pos + 1) = some '=' then
      .ok (⟨.NE, "!=", s.line, s.col⟩, forward inp 2 s)
    else if ch = '<' ∧ inp.get? (s.pos + 1) = some '=' then
      .ok (⟨.LE, "<=", s.line, s.col⟩, forward inp 2 s)
    else if ch = '>' ∧ inp.get? (s.pos + 1) = some '=' then
      .ok (⟨.GE, ">=", s.line, s.col⟩, forward inp 2 s)
    else if ch = '<' then .ok (⟨.LT, String.singleton ch, s.line, s.col⟩, step inp s)
    else if ch = '>' then .ok (⟨.GT, String.singleton ch, s.line, s.col⟩, step inp s)
    else if ch = '!' then .ok (⟨.BANG, String.singleton ch, s.line, s.col⟩, step inp s)
    else if ch = '-' then .ok (⟨.MINUS, String.singleton ch, s.line, s.col⟩, step inp s)
    else if ch = '"' ∨ ch = '\'' then stringScan inp s.line s.col s.pos fuel s
    else if (ch = 'r' ∨ ch = 'R') ∧ s.pos + 1 < inp.length ∧
        (inp.get? (s.pos + 1) = some '"' ∨ inp.get? (s.pos + 1) = some '\'') then
      stringScan inp s.line s.col s.pos fuel s
    else if (ch = 'b' ∨ ch = 'B') ∧ s.pos + 1 < inp.length ∧
        (inp.get? (s.pos + 1) = some '"' ∨ inp.get? (s.pos + 1) = some '\'') then
      bytesScan inp s.line s.col s.pos fuel s
    else if isDigitCh ch then numberScan inp s.line s.col s.pos fuel s
    else if isLetterCh ch || ch = '_' then identScan inp s.line s.col s.pos fuel s
    else .error "Unexpected character"

/-- Lexer.token: skip whitespace, then dispatch on the current
character. -/
def token (inp : List Char) (fuel : Nat) (s0 : LexState) : Except String (Token × LexState) :=
  tokenAt inp fuel (wsGo inp fuel s0)

/-- The full token stream: repeatedly call token until EOF. -/
def tokenList (inp : List Char) : Nat → LexState → Except String (List Token)
  | 0, _ => .error "lexer out of fuel"
  | fuel + 1, s =>
    match token inp fuel s with
    | .error e => .error e
    | .ok (t, s1) =>
      if t.type = .EOF then .ok [t]
      else
        match tokenList inp fuel s1 with
        | .error e => .error e
        | .ok ts => .ok (t :: ts)

/-- End-to-end compilation front end used by the concrete examples:
lex the source text and parse the resulting token stream. -/
def compileString (fuel : Nat) (src : String) : Except String Expr :=
  match tokenList src.data fuel lexInit with
  | .error e => .error e
  | .ok ts => parseProgram fuel ts

/-- A registry with no functions, used to instantiate registry-generic
statements at concrete inputs. -/
def emptyFunctions : Functions :=
  ⟨fun _ _ => .error "unknown function", fun _ _ _ => .error "unknown method"⟩

/-- The `typeof v === number` test of the source, as a value-shape
predicate. -/
def isNum : Value → Bool
  | .vnum _ => true
  | _ => false

/-- The `typeof v === string` test. -/
def isStr : Value → Bool
  | .vstr _ => true
  | _ => false

/-- The `typeof v === boolean` test. -/
def isBool : Value → Bool
  | .vbool _ => true
  | _ => false

/-- The `Array.isArray` test. -/
def isList : Value → Bool
  | .vlist _ => true
  | _ => false

/-- Constructor discriminant of a runtime value, used to state which
pairings count as a dynamic type mismatch. -/
def vctor : Value → Nat
  | .vnull => 0
  | .vbool _ => 1
  | .vnum _ => 2
  | .vstr _ => 3
  | .vlist _ => 4
  | .vmap _ => 5

/-- Keys of an association list. -/
def keysOf {β : Type} (es : List (String × β)) : List String := es.map Prod.fst

/-- Lexicographic order on line and column pairs, used to state that
token positions never move backwards. -/
def lcLE (a b : Nat × Nat) : Prop := a.1 < b.1 ∨ (a.1 = b.1 ∧ a.2 ≤ b.2)

/-- The line and column of a lexer state. -/
def lcOf (s : LexState) : Nat × Nat := (s.line, s.col)

/-- The line and column of a token. -/
def lcOfTok (t : Token) : Nat × Nat := (t.line, t.col)

/-- One lexer state is reachable from another by stepping forward zero
or more characters. -/
def Reaches (inp : List Char) (s s1 : LexState) : Prop :=
  ∃ n, s1 = forward inp n s

/-- The line and column counters are 1-based. -/
def posOK (s : LexState) : Prop := 1 ≤ s.line ∧ 1 ≤ s.col

theorem jset_jset {β : Type} (env : List (String × β)) (k : String) (v1 v2 : β) :
    jset (jset env k v1) k v2 = jset env k v2 := by
  induction env with
  | nil => simp [jset]
  | cons kv rest ih =>
    obtain ⟨k', v'⟩ := kv
    by_cases h : k' = k
    · simp [jset, h]
    · simp [jset, h, ih]

theorem jset_of_jlookup_some {β : Type} (env : List (String × β)) (k : String) (v : β)
    (h : jlookup env k = some v) : jset env k v = env := by
  induction env with
  | nil => simp [jlookup] at h
  | cons kv rest ih =>
    obtain ⟨k', v'⟩ := kv
    by_cases hk : k' = k
    · simp [jlookup, hk] at h
      simp [jset, hk, h]
    · simp [jlookup, hk] at h
      simp [jset, hk, ih h]

theorem jset_of_jlookup_none {β : Type} (env : List (String × β)) (k : String) (v : β)
    (h : jlookup env k = none) : jset env k v = env ++ [(k, v)] := by
  induction env with
  | nil => simp [jset]
  | cons kv rest ih =>
    obtain ⟨k', v'⟩ := kv
    by_cases hk : k' = k
    · simp [jlookup, hk] at h
    · simp [jlookup, hk] at h
      simp [jset, hk, ih h]

theorem jdel_of_jlookup_none {β : Type} (env : List (String × β)) (k : String)
    (h : jlookup env k = none) : jdel env k = env := by
  induction env with
  | nil => simp [jdel]
  | cons kv rest ih =>
    obtain ⟨k', v'⟩ := kv
    by_cases hk : k' = k
    · simp [jlookup, hk] at h
    · simp [jlookup, hk] at h
      simp [jdel, hk, ih h]

theorem jdel_append_of_jlookup_none {β : Type} (env : List (String × β)) (k : String) (v : β)
    (h : jlookup env k = none) : jdel (env ++ [(k, v)]) k = env := by
  induction env with
  | nil => simp [jdel]
  | cons kv rest ih =>
    obtain ⟨k', v'⟩ := kv
    by_cases hk : k' = k
    · simp [jlookup, hk] at h
    · simp [jlookup, hk] at h
      simp [jdel, hk, ih h]

theorem restoreVar_jset (env : Env) (k : String) (v : Value) :
    restoreVar (jset env k v) k (jlookup env k) = env := by
  cases h : jlookup env k with
  | some w =>
    simp only [restoreVar, jset_jset]
    exact jset_of_jlookup_some env k w h
  | none =>
    simp only [restoreVar]
    rw [jset_of_jlookup_none env k v h]
    exact jdel_append_of_jlookup_none env k v h

theorem restoreVar_self (env : Env) (k : String) :
    restoreVar env k (jlookup env k) = env := by
  cases h : jlookup env k with
  | some w => simpa [restoreVar] using jset_of_jlookup_some env k w h
  | none => simpa [restoreVar] using jdel_of_jlookup_none env k h

/-- Restoration lemma for the macro loops: whatever environment a loop
ends in (unchanged, or with the loop variable overwritten), the finally
block restores the environment from before the macro call. -/
theorem restoreVar_cases (env : Env) (k : String) (envAfter : Env)
    (h : envAfter = env ∨ ∃ v, envAfter = jset env k v) :
    restoreVar envAfter k (jlookup env k) = env := by
  rcases h with h | ⟨v, h⟩
  · rw [h]; exact restoreVar_self env k
  · rw [h]; exact restoreVar_jset env k v

/-- Strict environment bookkeeping of the interpreter, for every fuel
bound at once: evaluating any expression returns the environment it
started from (the only mutations are the macro loop-variable writes,
and the finally block undoes them on every exit path), and each macro
loop leaves the environment either untouched or with exactly the loop
variable overwritten. -/
theorem evalEnvPack (F : Functions) : ∀ fuel : Nat,
    (∀ e env, (eval F fuel e env).2 = env) ∧
    (∀ es env, (evalArgs F fuel es env).2 = env) ∧
    (∀ entries env acc, (evalEntries F fuel entries env acc).2 = env) ∧
    (∀ fields env acc, (evalFields F fuel fields env acc).2 = env) ∧
    (∀ body k items env acc, (macroMapGo F fuel body k items env acc).2 = env ∨
      ∃ v, (macroMapGo F fuel body k items env acc).2 = jset env k v) ∧
    (∀ body k items env acc, (macroFilterGo F fuel body k items env acc).2 = env ∨
      ∃ v, (macroFilterGo F fuel body k items env acc).2 = jset env k v) ∧
    (∀ body k items env, (macroAllGo F fuel body k items env).2 = env ∨
      ∃ v, (macroAllGo F fuel body k items env).2 = jset env k v) ∧
    (∀ body k items env, (macroExistsGo F fuel body k items env).2 = env ∨
      ∃ v, (macroExistsGo F fuel body k items env).2 = jset env k v) ∧
    (∀ body k items env count, (macroExistsOneGo F fuel body k items env count).2 = env ∨
      ∃ v, (macroExistsOneGo F fuel body k items env count).2 = jset env k v) := by
  intro fuel
  induction fuel with
  | zero =>
    refine ⟨?_, ?_, ?_, ?_, ?_, ?_, ?_, ?_, ?_⟩ <;> intros <;>
      simp [eval, evalArgs, evalEntries, evalFields, macroMapGo, macroFilterGo,
        macroAllGo, macroExistsGo, macroExistsOneGo]
  | succ fuel ih =>
    obtain ⟨ihE, ihA, ihEn, ihF, ihM, ihFi, ihAl, ihEx, ihEo⟩ := ih
    refine ⟨?_, ?_, ?_, ?_, ?_, ?_, ?_, ?_, ?_⟩
    · intro e env
      cases e with
      | literal v ltype => simp [eval]
      | identifier name =>
        simp only [eval]
        cases h : jlookup env name <;> simp
      | select operand field t =>
        cases operand with
        | none => simp [eval]
        | some oe =>
          simp only [eval]
          split
          next msg env1 heq => have := ihE oe env; rw [heq] at this; simpa using this
          next ov env1 heq => have := ihE oe env; rw [heq] at this; simpa using this
      | index oe ie =>
        simp only [eval]
        split
        next msg env1 heq => have := ihE oe env; rw [heq] at this; simpa using this
        next ov env1 heq =>
          have h1 : env1 = env := by have := ihE oe env; rw [heq] at this; simpa using this
          split
          next msg env2 heq2 =>
            have h2 : env2 = env1 := by
              have := ihE ie env1; rw [heq2] at this; simpa using this
            simp [h1, h2]
          next iv env2 heq2 =>
            have h2 : env2 = env1 := by
              have := ihE ie env1; rw [heq2] at this; simpa using this
            simp [h1, h2]
      | call target fname args mflag =>
        cases mflag with
        | false =>
          simp only [eval]
          split
          next msg env1 heq => have := ihA args env; rw [heq] at this; simpa using this
          next vs env1 heq =>
            have h1 : env1 = env := by
              have := ihA args env; rw [heq] at this; simpa using this
            split
            next tgt =>
              split
              next msg env2 heq2 =>
                have h2 : env2 = env1 := by
                  have := ihE tgt env1; rw [heq2] at this; simpa using this
                simp [h1, h2]
              next tv env2 heq2 =>
                have h2 : env2 = env1 := by
                  have := ihE tgt env1; rw [heq2] at this; simpa using this
                simp [h1, h2]
            next => simpa using h1
        | true =>
          cases target with
          | none =>
            simp only [eval]
            split
            next msg env1 heq => have := ihA args env; rw [heq] at this; simpa using this
            next vs env1 heq =>
              have h1 : env1 = env := by
                have := ihA args env; rw [heq] at this; simpa using this
              simpa using h1
          | some tgt =>
            simp only [eval]
            split
            next msg env1 heq => have := ihE tgt env; rw [heq] at this; simpa using this
            next tv env1 heq =>
              have h1 : env1 = env := by
                have := ihE tgt env; rw [heq] at this; simpa using this
              cases args with
              | nil => simpa using h1
              | cons a0 rest =>
                cases a0 with
                | identifier varName =>
                  cases rest with
                  | nil => simpa using h1
                  | cons body rest2 =>
                    cases tv with
                    | vlist items =>
                      rw [h1]
                      show restoreVar _ varName (jlookup env varName) = env
                      refine restoreVar_cases env varName _ ?_
                      split
                      · exact ihM body varName items env []
                      · exact ihFi body varName items env []
                      · exact ihAl body varName items env
                      · exact ihEx body varName items env
                      · exact ihEo body varName items env 0
                      · exact Or.inl rfl
                    | vnull => simpa using h1
                    | vbool b => simpa using h1
                    | vnum n => simpa using h1
                    | vstr s => simpa using h1
                    | vmap es => simpa using h1
                | literal v ltype => simpa using h1
                | select o f t => simpa using h1
                | index o i => simpa using h1
                | call t f a m => simpa using h1
                | listExpr es => simpa using h1
                | mapExpr es => simpa using h1
                | struct tn fs => simpa using h1
                | unary op o => simpa using h1
                | binary op l r => simpa using h1
                | conditional c t o => simpa using h1
      | listExpr elems =>
        simp only [eval]
        split
        next msg env1 heq => have := ihA elems env; rw [heq] at this; simpa using this
        next vs env1 heq => have := ihA elems env; rw [heq] at this; simpa using this
      | mapExpr entries =>
        simp only [eval]
        split
        next msg env1 heq =>
          have := ihEn entries env []; rw [heq] at this; simpa using this
        next m env1 heq =>
          have := ihEn entries env []; rw [heq] at this; simpa using this
      | struct tn fields =>
        simp only [eval]
        split
        next msg env1 heq =>
          have := ihF fields env []; rw [heq] at this; simpa using this
        next m env1 heq =>
          have := ihF fields env []; rw [heq] at this; simpa using this
      | unary op oe =>
        simp only [eval]
        split
        next msg env1 heq => have := ihE oe env; rw [heq] at this; simpa using this
        next v env1 heq => have := ihE oe env; rw [heq] at this; simpa using this
      | conditional c t o =>
        simp only [eval]
        split
        next msg env1 heq => have := ihE c env; rw [heq] at this; simpa using this
        next cv env1 heq =>
          have h1 : env1 = env := by have := ihE c env; rw [heq] at this; simpa using this
          split
          · rw [ihE t env1]; exact h1
          · rw [ihE o env1]; exact h1
      | binary op l r =>
        cases op
        case logicalAnd =>
          simp only [eval]
          split
          next msg env1 heq => have := ihE l env; rw [heq] at this; simpa using this
          next lv env1 heq =>
            have h1 : env1 = env := by have := ihE l env; rw [heq] at this; simpa using this
            split
            · split
              next msg env2 heq2 =>
                have h2 : env2 = env1 := by
                  have := ihE r env1; rw [heq2] at this; simpa using this
                simp [h1, h2]
              next rv env2 heq2 =>
                have h2 : env2 = env1 := by
                  have := ihE r env1; rw [heq2] at this; simpa using this
                simp [h1, h2]
            · simpa using h1
        case logicalOr =>
          simp only [eval]
          split
          next msg env1 heq => have := ihE l env; rw [heq] at this; simpa using this
          next lv env1 heq =>
            have h1 : env1 = env := by have := ihE l env; rw [heq] at this; simpa using this
            split
            · simpa using h1
            · split
              next msg env2 heq2 =>
                have h2 : env2 = env1 := by
                  have := ihE r env1; rw [heq2] at this; simpa using this
                simp [h1, h2]
              next rv env2 heq2 =>
                have h2 : env2 = env1 := by
                  have := ihE r env1; rw [heq2] at this; simpa using this
                simp [h1, h2]
        all_goals
          simp only [eval]
          split
          next msg env1 heq => have := ihE l env; rw [heq] at this; simpa using this
          next lv env1 heq =>
            have h1 : env1 = env := by have := ihE l env; rw [heq] at this; simpa using this
            split
            next msg env2 heq2 =>
              have h2 : env2 = env1 := by
                have := ihE r env1; rw [heq2] at this; simpa using this
              simp [h1, h2]
            next rv env2 heq2 =>
              have h2 : env2 = env1 := by
                have := ihE r env1; rw [heq2] at this; simpa using this
              simp [h1, h2]
    · intro es env
      cases es with
      | nil => simp [evalArgs]
      | cons e rest =>
        simp only [evalArgs]
        split
        next msg env1 heq => have := ihE e env; rw [heq] at this; simpa using this
        next v env1 heq =>
          have h1 : env1 = env := by have := ihE e env; rw [heq] at this; simpa using this
          split
          next msg env2 heq2 =>
            have h2 : env2 = env1 := by
              have := ihA rest env1; rw [heq2] at this; simpa using this
            simp [h1, h2]
          next vs env2 heq2 =>
            have h2 : env2 = env1 := by
              have := ihA rest env1; rw [heq2] at this; simpa using this
            simp [h1, h2]
    · intro entries env acc
      cases entries with
      | nil => simp [evalEntries]
      | cons kv rest =>
        obtain ⟨ke, ve⟩ := kv
        simp only [evalEntries]
        split
        next msg env1 heq => have := ihE ke env; rw [heq] at this; simpa using this
        next kv1 env1 heq =>
          have h1 : env1 = env := by have := ihE ke env; rw [heq] at this; simpa using this
          split
          next msg env2 heq2 =>
            have h2 : env2 = env1 := by
              have := ihE ve env1; rw [heq2] at this; simpa using this
            simp [h1, h2]
          next vv env2 heq2 =>
            have h2 : env2 = env1 := by
              have := ihE ve env1; rw [heq2] at this; simpa using this
            rw [ihEn rest env2 (jset acc (jsString kv1) vv), h2, h1]
    · intro fields env acc
      cases fields with
      | nil => simp [evalFields]
      | cons fv rest =>
        obtain ⟨fname, ve⟩ := fv
        simp only [evalFields]
        split
        next msg env1 heq => have := ihE ve env; rw [heq] at this; simpa using this
        next vv env1 heq =>
          have h1 : env1 = env := by have := ihE ve env; rw [heq] at this; simpa using this
          rw [ihF rest env1 (jset acc fname vv), h1]
    · intro body k items env acc
      cases items with
      | nil => simp [macroMapGo]
      | cons item rest =>
        simp only [macroMapGo]
        split
        next msg env1 heq =>
          have h1 : env1 = jset env k item := by
            have := ihE body (jset env k item); rw [heq] at this; simpa using this
          exact Or.inr ⟨item, h1⟩
        next r env1 heq =>
          have h1 : env1 = jset env k item := by
            have := ihE body (jset env k item); rw [heq] at this; simpa using this
          rcases ihM body k rest env1 (acc ++ [r]) with h | ⟨v, h⟩
          · exact Or.inr ⟨item, by rw [h, h1]⟩
          · exact Or.inr ⟨v, by rw [h, h1, jset_jset]⟩
    · intro body k items env acc
      cases items with
      | nil => simp [macroFilterGo]
      | cons item rest =>
        simp only [macroFilterGo]
        split
        next msg env1 heq =>
          have h1 : env1 = jset env k item := by
            have := ihE body (jset env k item); rw [heq] at this; simpa using this
          exact Or.inr ⟨item, h1⟩
        next r env1 heq =>
          have h1 : env1 = jset env k item := by
            have := ihE body (jset env k item); rw [heq] at this; simpa using this
          rcases ihFi body k rest env1 (if isTrueV r then acc ++ [item] else acc)
            with h | ⟨v, h⟩
          · exact Or.inr ⟨item, by rw [h, h1]⟩
          · exact Or.inr ⟨v, by rw [h, h1, jset_jset]⟩
    · intro body k items env
      cases items with
      | nil => simp [macroAllGo]
      | cons item rest =>
        simp only [macroAllGo]
        split
        next msg env1 heq =>
          have h1 : env1 = jset env k item := by
            have := ihE body (jset env k item); rw [heq] at this; simpa using this
          exact Or.inr ⟨item, h1⟩
        next r env1 heq =>
          have h1 : env1 = jset env k item := by
            have := ihE body (jset env k item); rw [heq] at this; simpa using this
          split
          · rcases ihAl body k rest env1 with h | ⟨v, h⟩
            · exact Or.inr ⟨item, by rw [h, h1]⟩
            · exact Or.inr ⟨v, by rw [h, h1, jset_jset]⟩
          · exact Or.inr ⟨item, h1⟩
    · intro body k items env
      cases items with
      | nil => simp [macroExistsGo]
      | cons item rest =>
        simp only [macroExistsGo]
        split
        next msg env1 heq =>
          have h1 : env1 = jset env k item := by
            have := ihE body (jset env k item); rw [heq] at this; simpa using this
          exact Or.inr ⟨item, h1⟩
        next r env1 heq =>
          have h1 : env1 = jset env k item := by
            have := ihE body (jset env k item); rw [heq] at this; simpa using this
          split
          · exact Or.inr ⟨item, h1⟩
          · rcases ihEx body k rest env1 with h | ⟨v, h⟩
            · exact Or.inr ⟨item, by rw [h, h1]⟩
            · exact Or.inr ⟨v, by rw [h, h1, jset_jset]⟩
    · intro body k items env count
      cases items with
      | nil => simp [macroExistsOneGo]
      | cons item rest =>
        simp only [macroExistsOneGo]
        split
        next msg env1 heq =>
          have h1 : env1 = jset env k item := by
            have := ihE body (jset env k item); rw [heq] at this; simpa using this
          exact Or.inr ⟨item, h1⟩
        next r env1 heq =>
          have h1 : env1 = jset env k item := by
            have := ihE body (jset env k item); rw [heq] at this; simpa using this
          split
          · split
            · exact Or.inr ⟨item, h1⟩
            · rcases ihEo body k rest env1 (count + 1) with h | ⟨v, h⟩
              · exact Or.inr ⟨item, by rw [h, h1]⟩
              · exact Or.inr ⟨v, by rw [h, h1, jset_jset]⟩
          · rcases ihEo body k rest env1 count with h | ⟨v, h⟩
            · exact Or.inr ⟨item, by rw [h, h1]⟩
            · exact Or.inr ⟨v, by rw [h, h1, jset_jset]⟩

/-- Evaluation returns the environment it was given, for every
expression, environment, registry and fuel bound. -/
theorem eval_env_eq (F : Functions) (fuel : Nat) (e : Expr) (env : Env) :
    (eval F fuel e env).2 = env :=
  (evalEnvPack F fuel).1 e env

/-- C3: for every macro evaluation over any environment, on every exit
path — normal completion, early short-circuit, or an error raised
partway through iteration — the environment after the call equals the
environment from before, so the loop variable keeps its prior binding
(or its absence) and nothing leaks out of the macro; concretely,
mapping over a three-element list with x previously bound to 100 and a
body that raises on the third element propagates the error and leaves x
bound to 100. -/
theorem macroEnvRestoredC3 :
    (∀ (F : Functions) (fuel : Nat) (tgt body : Expr) (rest : List Expr)
      (name varName : String) (env : Env),
      (eval F fuel (.call (some tgt) name (.identifier varName :: body :: rest) true) env).2
        = env ∧
      jlookup (eval F fuel
          (.call (some tgt) name (.identifier varName :: body :: rest) true) env).2 varName
        = jlookup env varName) ∧
    eval emptyFunctions 10
      (.call (some (.identifier "nums")) "map"
        [.identifier "x",
         .conditional (.binary .equal (.identifier "x") (.literal (.vnum 3) .intType))
           (.identifier "boom") (.identifier "x")] true)
      [("x", .vnum 100), ("nums", .vlist [.vnum 1, .vnum 2, .vnum 3])] =
    (.error "Undefined variable: boom",
      [("x", .vnum 100), ("nums", .vlist [.vnum 1, .vnum 2, .vnum 3])]) := by
  constructor
  · intro F fuel tgt body rest name varName env
    have h := eval_env_eq F fuel
      (.call (some tgt) name (.identifier varName :: body :: rest) true) env
    exact ⟨h, by rw [h]⟩
  · rfl

theorem jlookup_append_of_none {β : Type} (xs ys : List (String × β)) (k : String)
    (h : jlookup xs k = none) : jlookup (xs ++ ys) k = jlookup ys k := by
  induction xs with
  | nil => rfl
  | cons kv rest ih =>
    obtain ⟨k1, v1⟩ := kv
    by_cases hk : k1 = k
    · simp [jlookup, hk] at h
    · simp only [jlookup, if_neg hk] at h
      simpa [jlookup, hk] using ih h

theorem foldl_jset_append (vars : Env) : ∀ acc : Env,
    (∀ kk, kk ∈ keysOf vars → jlookup acc kk = none) → (keysOf vars).Nodup →
    vars.foldl (fun a kv => jset a kv.1 kv.2) acc = acc ++ vars := by
  induction vars with
  | nil => intro acc _ _; simp
  | cons kv rest ih =>
    obtain ⟨k, v⟩ := kv
    intro acc hacc hnd
    simp only [List.foldl_cons]
    have hk : jlookup acc k = none := hacc k (by simp [keysOf])
    rw [jset_of_jlookup_none acc k v hk]
    have hnd' : (k :: keysOf rest).Nodup := by simpa [keysOf] using hnd
    have hnd1 : (keysOf rest).Nodup := (List.nodup_cons.mp hnd').2
    have hknotin : k ∉ keysOf rest := (List.nodup_cons.mp hnd').1
    rw [ih (acc ++ [(k, v)]) ?_ hnd1]
    · simp
    · intro kk hkk
      have h1 : jlookup acc kk = none := hacc kk (by simp [keysOf]; right; simpa [keysOf] using hkk)
      rw [jlookup_append_of_none acc [(k, v)] kk h1]
      have hne : k ≠ kk := fun he => hknotin (he ▸ hkk)
      simp [jlookup, hne]

/-- The JS object spread copies an object with unique keys entry for
entry. -/
theorem spreadCopy_eq_self (vars : Env) (h : (keysOf vars).Nodup) :
    spreadCopy vars = vars := by
  unfold spreadCopy
  rw [foldl_jset_append vars [] (fun kk _ => rfl) h]
  simp

/-- C9: Program.evaluate interprets the AST against a spread copy of
the caller bindings, and interpretation itself returns its environment
unchanged on success and on error alike, so the caller bindings map
keeps exactly its entries: the whole run equals the plain evaluation
result paired with the untouched bindings. -/
theorem programEvaluateBindingsC9 (F : Functions) (fuel : Nat) (ast : Expr) (vars : Env)
    (h : (keysOf vars).Nodup) :
    programEvaluate F fuel ast vars = ((eval F fuel ast vars).1, vars) := by
  unfold programEvaluate
  rw [spreadCopy_eq_self vars h]
  exact Prod.ext rfl (eval_env_eq F fuel ast vars)

theorem programEvaluateBindingsC9_witness :
    (keysOf [("x", Value.vnum 1)]).Nodup ∧
    programEvaluate emptyFunctions 2 (.identifier "x") [("x", .vnum 1)] =
      ((eval emptyFunctions 2 (.identifier "x") [("x", .vnum 1)]).1, [("x", .vnum 1)]) :=
  ⟨by decide, programEvaluateBindingsC9 emptyFunctions 2 (.identifier "x")
    [("x", .vnum 1)] (by decide)⟩

/-- C1 counterexample: evaluating 5 && true evaluates the left operand
to the non-boolean 5 yet returns the value false instead of raising an
evaluation error, refuting the claim that an evaluated non-boolean
operand of a logical operator raises. -/
theorem logicalAndNonBooleanC1_counterexample :
    eval emptyFunctions 2
      (.binary .logicalAnd (.literal (.vnum 5) .intType) (.literal (.vbool true) .boolType)) []
      = (.ok (.vbool false), []) ∧
    ∀ msg : String,
      (eval emptyFunctions 2
        (.binary .logicalAnd (.literal (.vnum 5) .intType)
          (.literal (.vbool true) .boolType)) []).1 ≠ .error msg :=
  ⟨rfl, fun _ h => Except.noConfusion h⟩

/-- C1 amended: logical and and or short-circuit — when the left
operand evaluates to anything but the boolean true, the and returns
false without the right operand ever being evaluated, and when the left
is exactly true the or returns true likewise; otherwise the result is
whether the right operand evaluates exactly to boolean true, with its
errors propagated.  Non-boolean operands never raise; they simply count
as not-true. -/
theorem logicalShortCircuitC1 :
    (∀ (F : Functions) (fuel : Nat) (l r : Expr) (env env1 : Env) (lv : Value),
      eval F fuel l env = (.ok lv, env1) → isTrueV lv = false →
      eval F (fuel + 1) (.binary .logicalAnd l r) env = (.ok (.vbool false), env1)) ∧
    (∀ (F : Functions) (fuel : Nat) (l r : Expr) (env env1 env2 : Env) (lv rv : Value),
      eval F fuel l env = (.ok lv, env1) → isTrueV lv = true →
      eval F fuel r env1 = (.ok rv, env2) →
      eval F (fuel + 1) (.binary .logicalAnd l r) env = (.ok (.vbool (isTrueV rv)), env2)) ∧
    (∀ (F : Functions) (fuel : Nat) (l r : Expr) (env env1 : Env) (lv : Value),
      eval F fuel l env = (.ok lv, env1) → isTrueV lv = true →
      eval F (fuel + 1) (.binary .logicalOr l r) env = (.ok (.vbool true), env1)) ∧
    (∀ (F : Functions) (fuel : Nat) (l r : Expr) (env env1 env2 : Env) (lv rv : Value),
      eval F fuel l env = (.ok lv, env1) → isTrueV lv = false →
      eval F fuel r env1 = (.ok rv, env2) →
      eval F (fuel + 1) (.binary .logicalOr l r) env = (.ok (.vbool (isTrueV rv)), env2)) ∧
    (∀ (F : Functions) (fuel : Nat) (l r : Expr) (env env1 env2 : Env) (lv : Value)
      (msg : String),
      eval F fuel l env = (.ok lv, env1) → isTrueV lv = true →
      eval F fuel r env1 = (.error msg, env2) →
      eval F (fuel + 1) (.binary .logicalAnd l r) env = (.error msg, env2)) := by
  refine ⟨?_, ?_, ?_, ?_, ?_⟩
  · intro F fuel l r env env1 lv h1 hb
    simp only [eval]
    rw [h1]
    simp [hb]
  · intro F fuel l r env env1 env2 lv rv h1 hb hr
    simp only [eval]
    rw [h1]
    simp [hb, hr]
  · intro F fuel l r env env1 lv h1 hb
    simp only [eval]
    rw [h1]
    simp [hb]
  · intro F fuel l r env env1 env2 lv rv h1 hb hr
    simp only [eval]
    rw [h1]
    simp [hb, hr]
  · intro F fuel l r env env1 env2 lv msg h1 hb hr
    simp only [eval]
    rw [h1]
    simp [hb, hr]

theorem logicalShortCircuitC1_witness :
    eval emptyFunctions 1 (.literal (.vnum 5) .intType) [] = (.ok (.vnum 5), []) ∧
    isTrueV (.vnum 5) = false ∧
    eval emptyFunctions 2
      (.binary .logicalAnd (.literal (.vnum 5) .intType) (.identifier "boom")) [] =
      (.ok (.vbool false), []) :=
  ⟨rfl, rfl, logicalShortCircuitC1.1 emptyFunctions 1
    (.literal (.vnum 5) .intType) (.identifier "boom") [] [] (.vnum 5) rfl rfl⟩

/-- C2 counterexample: 10 / 2 evaluates to the plain numeric value 5,
which the type classifier reports as int, not double — the runtime
value carries no non-integral tag. -/
theorem divisionIntResultC2_counterexample :
    eval emptyFunctions 2
      (.binary .divide (.literal (.vnum 10) .intType) (.literal (.vnum 2) .intType)) []
      = (.ok (.vnum 5), []) ∧
    typeOf (.vnum 5) = "int" ∧ "int" ≠ "double" := by
  refine ⟨?_, rfl, by decide⟩
  simp only [eval, binaryOp]
  norm_num

/-- C2 amended: division is numeric-only — with numeric operands it
raises on a zero divisor and otherwise yields the exact quotient as a
plain number (no non-integral tag exists at runtime; the classifier
calls an integral quotient int), and with any non-numeric operand it
raises. -/
theorem divisionSemanticsC2 :
    (∀ (F : Functions) (fuel : Nat) (l r : Expr) (env env1 env2 : Env) (a b : Rat),
      eval F fuel l env = (.ok (.vnum a), env1) →
      eval F fuel r env1 = (.ok (.vnum b), env2) →
      eval F (fuel + 1) (.binary .divide l r) env =
        (if b = 0 then ((.error "Division by zero" : Except String Value), env2)
         else (.ok (.vnum (a / b)), env2))) ∧
    (∀ (F : Functions) (fuel : Nat) (l r : Expr) (env env1 env2 : Env) (lv rv : Value),
      eval F fuel l env = (.ok lv, env1) →
      eval F fuel r env1 = (.ok rv, env2) →
      (isNum lv && isNum rv) = false →
      eval F (fuel + 1) (.binary .divide l r) env =
        (.error "Division requires numeric operands", env2)) ∧
    (∀ (a b : Rat), b ≠ 0 →
      typeOf (.vnum (a / b)) = if (a / b).den = 1 then "int" else "double") := by
  refine ⟨?_, ?_, ?_⟩
  · intro F fuel l r env env1 env2 a b hl hr
    simp only [eval]
    rw [hl]
    simp only [hr, binaryOp]
    by_cases hb : b = 0 <;> simp [hb]
  · intro F fuel l r env env1 env2 lv rv hl hr hnum
    simp only [eval]
    rw [hl]
    simp only [hr]
    cases lv <;> cases rv <;> simp_all [binaryOp, isNum]
  · intro a b _
    rfl

theorem divisionSemanticsC2_witness :
    eval emptyFunctions 1 (.literal (.vnum 10) .intType) [] = (.ok (.vnum 10), []) ∧
    eval emptyFunctions 2
      (.binary .divide (.literal (.vnum 10) .intType) (.literal (.vnum 2) .intType)) [] =
      (if (2 : Rat) = 0 then ((.error "Division by zero" : Except String Value), ([] : Env))
       else (.ok (.vnum ((10 : Rat) / 2)), [])) :=
  ⟨rfl, divisionSemanticsC2.1 emptyFunctions 1
    (.literal (.vnum 10) .intType) (.literal (.vnum 2) .intType) [] [] [] 10 2 rfl rfl⟩

/-- C6: the existsOne macro counts predicates that evaluate to exactly
boolean true; an empty list yields false; once the count would exceed
one the loop returns false immediately, whatever elements remain
unevaluated; otherwise the loop reports whether the final count is
exactly one.  The spec examples hold concretely. -/
theorem existsOneSemanticsC6 :
    (∀ (F : Functions) (fuel : Nat) (tgt body : Expr) (rest : List Expr)
      (varName : String) (env env1 : Env),
      eval F (fuel + 1) tgt env = (.ok (.vlist []), env1) →
      eval F (fuel + 2) (.call (some tgt) "existsOne"
        (.identifier varName :: body :: rest) true) env = (.ok (.vbool false), env1)) ∧
    (∀ (F : Functions) (fuel : Nat) (body : Expr) (varName : String) (v : Value)
      (rest : List Value) (env envB : Env) (r : Value),
      eval F fuel body (jset env varName v) = (.ok r, envB) → isTrueV r = true →
      macroExistsOneGo F (fuel + 1) body varName (v :: rest) env 1 =
        (.ok (.vbool false), envB)) ∧
    (∀ (F : Functions) (fuel : Nat) (body : Expr) (varName : String) (v : Value)
      (rest : List Value) (env envB : Env) (r : Value) (count : Nat),
      eval F fuel body (jset env varName v) = (.ok r, envB) → isTrueV r = false →
      macroExistsOneGo F (fuel + 1) body varName (v :: rest) env count =
        macroExistsOneGo F fuel body varName rest envB count) ∧
    (∀ (F : Functions) (fuel : Nat) (body : Expr) (varName : String) (v : Value)
      (rest : List Value) (env envB : Env) (r : Value),
      eval F fuel body (jset env varName v) = (.ok r, envB) → isTrueV r = true →
      macroExistsOneGo F (fuel + 1) body varName (v :: rest) env 0 =
        macroExistsOneGo F fuel body varName rest envB 1) ∧
    (∀ (F : Functions) (fuel : Nat) (body : Expr) (varName : String) (env : Env)
      (count : Nat),
      macroExistsOneGo F (fuel + 1) body varName [] env count =
        (.ok (.vbool (count == 1)), env)) ∧
    eval emptyFunctions 10
      (.call (some (.listExpr [.literal (.vnum 1) .intType, .literal (.vnum 2) .intType,
        .literal (.vnum 3) .intType])) "existsOne"
        [.identifier "x", .binary .equal (.identifier "x") (.literal (.vnum 2) .intType)]
        true) [] = (.ok (.vbool true), []) ∧
    eval emptyFunctions 10
      (.call (some (.listExpr [.literal (.vnum 1) .intType, .literal (.vnum 2) .intType,
        .literal (.vnum 3) .intType])) "existsOne"
        [.identifier "x", .binary .greater (.identifier "x") (.literal (.vnum 1) .intType)]
        true) [] = (.ok (.vbool false), []) ∧
    eval emptyFunctions 10
      (.call (some (.listExpr [])) "existsOne"
        [.identifier "x", .binary .greater (.identifier "x") (.literal (.vnum 0) .intType)]
        true) [] = (.ok (.vbool false), []) := by
  refine ⟨?_, ?_, ?_, ?_, ?_, ?_, ?_, ?_⟩
  · intro F fuel tgt body rest varName env env1 h
    rw [eval]
    simp only []
    rw [h]
    show ((.ok (.vbool false) : Except String Value),
      restoreVar env1 varName (jlookup env1 varName)) = (.ok (.vbool false), env1)
    rw [restoreVar_self]
  · intro F fuel body varName v rest env envB r h ht
    simp only [macroExistsOneGo]
    rw [h]
    simp [ht]
  · intro F fuel body varName v rest env envB r count h hf
    simp only [macroExistsOneGo]
    rw [h]
    simp [hf]
  · intro F fuel body varName v rest env envB r h ht
    simp only [macroExistsOneGo]
    rw [h]
    simp [ht]
  · intro F fuel body varName env count
    rfl
  · rfl
  · norm_num [String.reduceEq, eval, evalArgs, macroExistsOneGo, binaryOp, Cel.compare,
      jset, jlookup, restoreVar, jdel, isTrueV, Except.map]
  · rfl

theorem existsOneSemanticsC6_witness :
    eval emptyFunctions 1 (.identifier "x") (jset [] "x" (.vbool true)) =
      (.ok (.vbool true), [("x", .vbool true)]) ∧
    isTrueV (.vbool true) = true ∧
    macroExistsOneGo emptyFunctions 2 (.identifier "x") "x" [.vbool true, .vnull] [] 1 =
      (.ok (.vbool false), [("x", .vbool true)]) :=
  ⟨rfl, rfl, existsOneSemanticsC6.2.1 emptyFunctions 1 (.identifier "x") "x"
    (.vbool true) [.vnull] [] [("x", .vbool true)] (.vbool true) rfl rfl⟩

theorem jhas_iff_mem_keys {β : Type} (es : List (String × β)) (k : String) :
    jhas es k = true ↔ k ∈ keysOf es := by
  induction es with
  | nil => simp [jhas, jlookup, keysOf]
  | cons kv rest ih =>
    obtain ⟨k1, v1⟩ := kv
    by_cases hk : k1 = k
    · subst hk
      simp [jhas, jlookup, keysOf]
    · have hkeq : keysOf ((k1, v1) :: rest) = k1 :: keysOf rest := rfl
      rw [hkeq, List.mem_cons]
      have hj : jhas ((k1, v1) :: rest) k = jhas rest k := by
        simp [jhas, jlookup, hk]
      rw [hj, ih]
      constructor
      · exact Or.inr
      · rintro (he | hm)
        · exact absurd he.symm hk
        · exact hm

theorem mem_of_jlookup {β : Type} (es : List (String × β)) (k : String) (v : β)
    (h : jlookup es k = some v) : (k, v) ∈ es := by
  induction es with
  | nil => simp [jlookup] at h
  | cons kv rest ih =>
    obtain ⟨k1, v1⟩ := kv
    by_cases hk : k1 = k
    · simp only [jlookup, if_pos hk] at h
      cases h
      simp [hk]
    · simp only [jlookup, if_neg hk] at h
      exact List.mem_cons_of_mem _ (ih h)

theorem jlookup_of_mem_nodup {β : Type} (es : List (String × β)) (k : String) (v : β)
    (hnd : (keysOf es).Nodup) (h : (k, v) ∈ es) : jlookup es k = some v := by
  induction es with
  | nil => simp at h
  | cons kv rest ih =>
    obtain ⟨k1, v1⟩ := kv
    have hnd0 : (k1 :: keysOf rest).Nodup := by simpa [keysOf] using hnd
    have hnd' := List.nodup_cons.mp hnd0
    rcases List.mem_cons.mp h with he | hmem
    · cases he
      simp [jlookup]
    · have hne : k1 ≠ k := by
        intro he
        exact hnd'.1 (he ▸ List.mem_map.mpr ⟨(k, v), hmem, rfl⟩)
      simp only [jlookup, if_neg hne]
      exact ih hnd'.2 hmem

theorem deepEqualsList_iff (as bs : List Value) :
    deepEqualsList as bs = true ↔
      (as.length = bs.length ∧ ∀ p ∈ as.zip bs, deepEquals p.1 p.2 = true) := by
  induction as generalizing bs with
  | nil => cases bs <;> simp [deepEqualsList]
  | cons a as ih =>
    cases bs with
    | nil => simp [deepEqualsList]
    | cons b bs =>
      simp only [deepEqualsList, Bool.and_eq_true, ih, List.length_cons,
        List.zip_cons_cons, List.mem_cons]
      constructor
      · rintro ⟨h1, h2, h3⟩
        refine ⟨by omega, ?_⟩
        rintro p (rfl | hp)
        · exact h1
        · exact h3 p hp
      · rintro ⟨h1, h2⟩
        exact ⟨h2 (a, b) (Or.inl rfl), by omega, fun p hp => h2 p (Or.inr hp)⟩

theorem deepEqualsEntries_iff (aes bes : List (String × Value)) :
    deepEqualsEntries aes bes = true ↔
      ∀ p ∈ aes, ∃ w, jlookup bes p.1 = some w ∧ deepEquals p.2 w = true := by
  induction aes with
  | nil => simp [deepEqualsEntries]
  | cons kv rest ih =>
    obtain ⟨k, v⟩ := kv
    simp only [deepEqualsEntries, Bool.and_eq_true, ih, List.mem_cons]
    cases hlk : jlookup bes k with
    | none =>
      simp only [false_and]
      constructor
      · rintro ⟨h, _⟩; exact absurd h (by simp)
      · intro h
        obtain ⟨w, hw, _⟩ := h (k, v) (Or.inl rfl)
        rw [hlk] at hw
        cases hw
    | some w =>
      constructor
      · rintro ⟨h1, h2⟩
        rintro p (rfl | hp)
        · exact ⟨w, hlk, h1⟩
        · exact h2 p hp
      · intro h
        obtain ⟨w', hw', hd⟩ := h (k, v) (Or.inl rfl)
        rw [hlk] at hw'
        cases hw'
        exact ⟨hd, fun p hp => h p (Or.inr hp)⟩

theorem keys_iff_of_deepEntries (aes bes : List (String × Value))
    (ha : (keysOf aes).Nodup) (hb : (keysOf bes).Nodup)
    (hlen : aes.length = bes.length)
    (hent : ∀ p ∈ aes, ∃ w, jlookup bes p.1 = some w ∧ deepEquals p.2 w = true) :
    ∀ kk, kk ∈ keysOf aes ↔ kk ∈ keysOf bes := by
  have hsub : ∀ kk, kk ∈ keysOf aes → kk ∈ keysOf bes := by
    intro kk hkk
    obtain ⟨p, hmem, hpk⟩ := List.mem_map.mp hkk
    obtain ⟨w, hw, _⟩ := hent p hmem
    exact List.mem_map.mpr ⟨(p.1, w), mem_of_jlookup _ _ _ hw, hpk⟩
  have hlen' : (keysOf aes).length = (keysOf bes).length := by simp [keysOf, hlen]
  have hcard : (keysOf aes).toFinset.card = (keysOf bes).toFinset.card := by
    rw [List.toFinset_card_of_nodup ha, List.toFinset_card_of_nodup hb, hlen']
  have hsubF : (keysOf aes).toFinset ⊆ (keysOf bes).toFinset := by
    intro x hx
    exact List.mem_toFinset.mpr (hsub x (List.mem_toFinset.mp hx))
  have hFeq : (keysOf aes).toFinset = (keysOf bes).toFinset :=
    Finset.eq_of_subset_of_card_le hsubF (le_of_eq hcard.symm)
  intro kk
  constructor
  · exact hsub kk
  · intro hkk
    exact List.mem_toFinset.mp (hFeq ▸ List.mem_toFinset.mpr hkk)

/-- C4: equality and inequality never raise — with evaluated operands
they always produce a boolean from the total deepEquals; lists are
deep-equal exactly when they have the same length and are element-wise
deep-equal; maps are deep-equal exactly when they have the same key set
with deep-equal values per key, independent of insertion order; the
spec examples hold; and every constructor mismatch yields false rather
than an error. -/
theorem deepEqualityC4 :
    (∀ (F : Functions) (fuel : Nat) (l r : Expr) (env env1 env2 : Env) (lv rv : Value),
      eval F fuel l env = (.ok lv, env1) → eval F fuel r env1 = (.ok rv, env2) →
      eval F (fuel + 1) (.binary .equal l r) env =
        (.ok (.vbool (deepEquals lv rv)), env2) ∧
      eval F (fuel + 1) (.binary .notEqual l r) env =
        (.ok (.vbool (!deepEquals lv rv)), env2)) ∧
    (∀ as bs : List Value, deepEquals (.vlist as) (.vlist bs) = true ↔
      (as.length = bs.length ∧ ∀ p ∈ as.zip bs, deepEquals p.1 p.2 = true)) ∧
    (∀ aes bes : List (String × Value), (keysOf aes).Nodup → (keysOf bes).Nodup →
      (deepEquals (.vmap aes) (.vmap bes) = true ↔
        ((∀ k, jhas aes k = jhas bes k) ∧
         (∀ k v w, jlookup aes k = some v → jlookup bes k = some w →
            deepEquals v w = true)))) ∧
    deepEquals (.vmap [("a", .vnum 1), ("b", .vnum 2)])
      (.vmap [("b", .vnum 2), ("a", .vnum 1)]) = true ∧
    deepEquals (.vlist [.vnum 1, .vnum 2, .vnum 3])
      (.vlist [.vnum 1, .vnum 2, .vnum 3]) = true ∧
    deepEquals (.vlist [.vnum 1, .vnum 2]) (.vlist [.vnum 1, .vnum 2, .vnum 3]) = false ∧
    (∀ a b : Value, vctor a ≠ vctor b → deepEquals a b = false) := by
  refine ⟨?_, ?_, ?_, by decide, by decide, by decide, ?_⟩
  · intro F fuel l r env env1 env2 lv rv hl hr
    constructor <;> (simp only [eval]; rw [hl]; simp [hr, binaryOp])
  · intro as bs
    simp only [deepEquals, Bool.and_eq_true, beq_iff_eq, deepEqualsList_iff]
    constructor
    · rintro ⟨_, h⟩; exact h
    · rintro ⟨h1, h2⟩; exact ⟨h1, h1, h2⟩
  · intro aes bes ha hb
    simp only [deepEquals, Bool.and_eq_true, beq_iff_eq, deepEqualsEntries_iff]
    constructor
    · rintro ⟨hlen, hent⟩
      have hkeys := keys_iff_of_deepEntries aes bes ha hb hlen hent
      refine ⟨?_, ?_⟩
      · intro k
        by_cases hk : k ∈ keysOf aes
        · have hk2 := (hkeys k).mp hk
          rw [(jhas_iff_mem_keys aes k).mpr hk, (jhas_iff_mem_keys bes k).mpr hk2]
        · have hk2 : k ∉ keysOf bes := fun h => hk ((hkeys k).mpr h)
          have e1 : jhas aes k = false := by
            cases he : jhas aes k
            · rfl
            · exact absurd ((jhas_iff_mem_keys aes k).mp he) hk
          have e2 : jhas bes k = false := by
            cases he : jhas bes k
            · rfl
            · exact absurd ((jhas_iff_mem_keys bes k).mp he) hk2
          rw [e1, e2]
      · intro k v w hv hw
        obtain ⟨w', hw', hd⟩ := hent (k, v) (mem_of_jlookup _ _ _ hv)
        rw [hw] at hw'
        cases hw'
        exact hd
    · rintro ⟨hkeys, hval⟩
      have hiffk : ∀ kk, kk ∈ keysOf aes ↔ kk ∈ keysOf bes := by
        intro kk
        rw [← jhas_iff_mem_keys, ← jhas_iff_mem_keys, hkeys kk]
      have hperm : List.Perm (keysOf aes) (keysOf bes) :=
        (List.perm_ext_iff_of_nodup ha hb).mpr hiffk
      refine ⟨by simpa [keysOf] using hperm.length_eq, ?_⟩
      intro p hp
      have hl : jlookup aes p.1 = some p.2 := jlookup_of_mem_nodup aes p.1 p.2 ha hp
      have hhas : jhas bes p.1 = true := by
        rw [← hkeys p.1]
        simp [jhas, hl]
      cases hlk : jlookup bes p.1 with
      | none => rw [jhas, hlk] at hhas; simp at hhas
      | some w => exact ⟨w, rfl, hval p.1 p.2 w hl hlk⟩
  · intro a b h
    cases a <;> cases b <;> simp_all [vctor, deepEquals]

theorem deepEqualityC4_witness :
    (keysOf [("a", Value.vnum 1)]).Nodup ∧
    (deepEquals (.vmap [("a", .vnum 1)]) (.vmap [("a", .vnum 1)]) = true ↔
      ((∀ k, jhas [("a", Value.vnum 1)] k = jhas [("a", Value.vnum 1)] k) ∧
       (∀ k v w, jlookup [("a", Value.vnum 1)] k = some v →
          jlookup [("a", Value.vnum 1)] k = some w → deepEquals v w = true))) :=
  ⟨by decide, deepEqualityC4.2.2.1 [("a", .vnum 1)] [("a", .vnum 1)]
    (by decide) (by decide)⟩

/-- C5: the four ordering operators all evaluate through the single
comparator, under which null sorts before every non-null value and
equals only null, numbers compare by value (the sign of the
difference), strings compare lexicographically, false sorts before
true, lists compare element-wise and then by length, and every other
pairing raises the not-comparable error. -/
theorem comparisonSemanticsC5 :
    (∀ (F : Functions) (fuel : Nat) (l r : Expr) (env env1 env2 : Env) (lv rv : Value),
      eval F fuel l env = (.ok lv, env1) → eval F fuel r env1 = (.ok rv, env2) →
      eval F (fuel + 1) (.binary .less l r) env =
        ((Cel.compare lv rv).map (fun c => .vbool (decide (c < 0))), env2) ∧
      eval F (fuel + 1) (.binary .lessEqual l r) env =
        ((Cel.compare lv rv).map (fun c => .vbool (decide (c ≤ 0))), env2) ∧
      eval F (fuel + 1) (.binary .greater l r) env =
        ((Cel.compare lv rv).map (fun c => .vbool (decide (0 < c))), env2) ∧
      eval F (fuel + 1) (.binary .greaterEqual l r) env =
        ((Cel.compare lv rv).map (fun c => .vbool (decide (0 ≤ c))), env2)) ∧
    (Cel.compare .vnull .vnull = .ok 0 ∧
     ∀ v : Value, v ≠ .vnull →
       Cel.compare .vnull v = .ok (-1) ∧ Cel.compare v .vnull = .ok 1) ∧
    (∀ a b : Rat, Cel.compare (.vnum a) (.vnum b) = .ok (a - b) ∧ (a - b < 0 ↔ a < b)) ∧
    (∀ s t : String, Cel.compare (.vstr s) (.vstr t) =
        .ok (if s < t then -1 else if s = t then 0 else 1) ∧
      (((if s < t then (-1 : Rat) else if s = t then 0 else 1) < 0) ↔ s < t)) ∧
    (Cel.compare (.vbool false) (.vbool true) = .ok (-1) ∧
     Cel.compare (.vbool true) (.vbool false) = .ok 1 ∧
     ∀ b : Bool, Cel.compare (.vbool b) (.vbool b) = .ok 0) ∧
    ((∀ (a b : Value) (c : Rat) (as bs : List Value),
        Cel.compare a b = .ok c → c ≠ 0 →
        Cel.compare (.vlist (a :: as)) (.vlist (b :: bs)) = .ok c) ∧
     (∀ (a b : Value) (as bs : List Value), Cel.compare a b = .ok 0 →
        Cel.compare (.vlist (a :: as)) (.vlist (b :: bs)) =
          Cel.compare (.vlist as) (.vlist bs)) ∧
     (∀ bs : List Value, Cel.compare (.vlist []) (.vlist bs) =
        .ok (0 - (bs.length : Rat))) ∧
     (∀ (a : Value) (as : List Value), Cel.compare (.vlist (a :: as)) (.vlist []) =
        .ok (((a :: as).length : Rat))) ∧
     (Cel.compare (.vlist [.vnum 1, .vnum 2]) (.vlist [.vnum 1, .vnum 3])).map
        (fun c => decide (c < 0)) = .ok true ∧
     (Cel.compare (.vlist [.vnum 1, .vnum 2]) (.vlist [.vnum 1, .vnum 2, .vnum 3])).map
        (fun c => decide (c < 0)) = .ok true ∧
     (Cel.compare (.vlist [.vnum 1, .vnum 3]) (.vlist [.vnum 1, .vnum 2])).map
        (fun c => decide (c < 0)) = .ok false) ∧
    (∀ a b : Value, a ≠ .vnull → b ≠ .vnull →
      (isNum a && isNum b) = false → (isStr a && isStr b) = false →
      (isBool a && isBool b) = false → (isList a && isList b) = false →
      Cel.compare a b = .error "Cannot compare types") := by
  refine ⟨?_, ⟨rfl, ?_⟩, ?_, ?_, ⟨rfl, rfl, ?_⟩, ⟨?_, ?_, ?_, ?_, ?_, ?_, ?_⟩, ?_⟩
  · intro F fuel l r env env1 env2 lv rv hl hr
    refine ⟨?_, ?_, ?_, ?_⟩ <;> (simp only [eval]; rw [hl]; simp [hr, binaryOp])
  · intro v hv
    cases v
    · exact absurd rfl hv
    all_goals exact ⟨rfl, rfl⟩
  · intro a b
    exact ⟨rfl, sub_neg⟩
  · intro s t
    refine ⟨rfl, ?_⟩
    split_ifs with h1 h2
    · simp [h1]
    · simp [h2]
    · simp [h1]
  · intro b
    cases b <;> rfl
  · intro a b c as bs h hc
    simp [Cel.compare, compareList, h, hc]
  · intro a b as bs h
    simp [Cel.compare, compareList, h]
  · intro bs
    simp [Cel.compare, compareList]
  · intro a as
    simp [Cel.compare, compareList]
  · norm_num [Cel.compare, compareList, Except.map]
  · norm_num [Cel.compare, compareList, Except.map]
  · norm_num [Cel.compare, compareList, Except.map]
  · intro a b h1 h2 h3 h4 h5 h6
    cases a <;> cases b <;> simp_all [Cel.compare, isNum, isStr, isBool, isList]

theorem comparisonSemanticsC5_witness :
    (Value.vnum 1 ≠ Value.vnull) ∧ (Value.vstr "x" ≠ Value.vnull) ∧
    Cel.compare (.vnum 1) (.vstr "x") = .error "Cannot compare types" :=
  ⟨fun h => Value.noConfusion h, fun h => Value.noConfusion h,
    comparisonSemanticsC5.2.2.2.2.2.2 (.vnum 1) (.vstr "x")
      (fun h => Value.noConfusion h) (fun h => Value.noConfusion h) rfl rfl rfl rfl⟩

/-- C10: map-literal evaluation coerces every evaluated key to its JS
string representation when assigning into the object being built, so
literals whose keys stringify identically produce identical (hence
deep-equal) maps, and both the in operator and indexing look keys up by
the stringified form. -/
theorem mapKeyStringCoercionC10 :
    (∀ (F : Functions) (fuel : Nat) (ke ve : Expr) (rest : List (Expr × Expr))
      (env env1 env2 : Env) (acc : List (String × Value)) (kv vv : Value),
      eval F fuel ke env = (.ok kv, env1) → eval F fuel ve env1 = (.ok vv, env2) →
      evalEntries F (fuel + 1) ((ke, ve) :: rest) env acc =
        evalEntries F fuel rest env2 (jset acc (jsString kv) vv)) ∧
    (∀ (F : Functions) (fuel : Nat) (k1e k2e ve : Expr) (env env1 env2 : Env)
      (kv1 kv2 vv : Value),
      eval F (fuel + 1) k1e env = (.ok kv1, env1) →
      eval F (fuel + 1) k2e env = (.ok kv2, env1) →
      eval F (fuel + 1) ve env1 = (.ok vv, env2) →
      eval F (fuel + 3) (.mapExpr [(k1e, ve)]) env =
        (.ok (.vmap [(jsString kv1, vv)]), env2) ∧
      (jsString kv1 = jsString kv2 →
        eval F (fuel + 3) (.mapExpr [(k1e, ve)]) env =
        eval F (fuel + 3) (.mapExpr [(k2e, ve)]) env)) ∧
    eval emptyFunctions 5
      (.mapExpr [(.literal (.vnum 1) .intType, .literal (.vstr "a") .stringType)]) [] =
      (.ok (.vmap [("1", .vstr "a")]), []) ∧
    eval emptyFunctions 5
      (.mapExpr [(.literal (.vstr "1") .stringType, .literal (.vstr "a") .stringType)]) [] =
      (.ok (.vmap [("1", .vstr "a")]), []) ∧
    deepEquals (.vmap [("1", .vstr "a")]) (.vmap [("1", .vstr "a")]) = true ∧
    (∀ (lv : Value) (es : List (String × Value)),
      binaryOp .inOp lv (.vmap es) = .ok (.vbool (jhas es (jsString lv)))) ∧
    (∀ (es : List (String × Value)) (iv v : Value),
      (jlookup es (jsString iv) = some v → indexOn (.vmap es) iv = .ok v) ∧
      (jlookup es (jsString iv) = none →
        indexOn (.vmap es) iv = .error ("Map key not found: " ++ jsString iv))) := by
  have entryStep : ∀ (F : Functions) (fuel : Nat) (ke ve : Expr)
      (rest : List (Expr × Expr)) (env env1 env2 : Env) (acc : List (String × Value))
      (kv vv : Value),
      eval F fuel ke env = (.ok kv, env1) → eval F fuel ve env1 = (.ok vv, env2) →
      evalEntries F (fuel + 1) ((ke, ve) :: rest) env acc =
        evalEntries F fuel rest env2 (jset acc (jsString kv) vv) := by
    intro F fuel ke ve rest env env1 env2 acc kv vv hk hv
    simp only [evalEntries]
    rw [hk]
    simp [hv]
  refine ⟨entryStep, ?_, rfl, rfl, by decide, fun lv es => rfl, ?_⟩
  · intro F fuel k1e k2e ve env env1 env2 kv1 kv2 vv h1 h2 hv
    have run : ∀ (ke : Expr) (kv : Value), eval F (fuel + 1) ke env = (.ok kv, env1) →
        eval F (fuel + 3) (.mapExpr [(ke, ve)]) env =
          (.ok (.vmap [(jsString kv, vv)]), env2) := by
      intro ke kv hk
      rw [eval]
      rw [entryStep F (fuel + 1) ke ve [] env env1 env2 [] kv vv hk hv]
      rfl
    refine ⟨run k1e kv1 h1, fun heq => ?_⟩
    rw [run k1e kv1 h1, run k2e kv2 h2, heq]
  · intro es iv v
    constructor
    · intro h
      simp [indexOn, h]
    · intro h
      simp [indexOn, h]

theorem mapKeyStringCoercionC10_witness :
    eval emptyFunctions 1 (.literal (.vnum 1) .intType) [] = (.ok (.vnum 1), []) ∧
    eval emptyFunctions 1 (.literal (.vstr "a") .stringType) [] = (.ok (.vstr "a"), []) ∧
    evalEntries emptyFunctions 2
      [((.literal (.vnum 1) .intType), (.literal (.vstr "a") .stringType))] [] [] =
      evalEntries emptyFunctions 1 [] [] (jset [] (jsString (.vnum 1)) (.vstr "a")) :=
  ⟨rfl, rfl, mapKeyStringCoercionC10.1 emptyFunctions 1
    (.literal (.vnum 1) .intType) (.literal (.vstr "a") .stringType) [] [] [] [] []
    (.vnum 1) (.vstr "a") rfl rfl⟩

/-- C7: the parser classifies a brace literal as a struct exactly when a
type name preceded the brace or the first entry begins with a bare
identifier immediately followed by a colon, and as a map otherwise; the
struct node carries the preceding type name (or none).  Concretely, a
brace literal with the string key "a" parses as a map, one with the bare
identifier key a as an untyped struct, Person before the brace gives a
struct tagged Person, an empty brace literal is an empty map, and an
empty brace literal after Person is an empty struct. -/
theorem braceLiteralDisambiguationC7 :
    (∀ (fuel : Nat) (typeName : Option String) (st : ParserState)
        (e : Expr) (st' : ParserState),
      parseMapOrStructLiteral fuel typeName st = .ok (e, st') →
        ((∃ fields, e = .struct typeName fields) ↔
          (typeName ≠ none ∨
            ((advance st).current.type = .IDENTIFIER ∧
              (peekAhead (advance st) 1).type = .COLON))) ∧
        ((∃ entries, e = .mapExpr entries) ↔
          (typeName = none ∧
            ¬((advance st).current.type = .IDENTIFIER ∧
              (peekAhead (advance st) 1).type = .COLON)))) ∧
    compileString 30 "\x7b\"a\":1\x7d" =
      .ok (.mapExpr [(.literal (.vstr "a") .stringType, .literal (.vnum 1) .intType)]) ∧
    compileString 30 "\x7ba:1\x7d" =
      .ok (.struct none [("a", .literal (.vnum 1) .intType)]) ∧
    compileString 30 "Person\x7ba:1\x7d" =
      .ok (.struct (some "Person") [("a", .literal (.vnum 1) .intType)]) ∧
    compileString 30 "\x7b\x7d" = .ok (.mapExpr []) ∧
    compileString 30 "Person\x7b\x7d" = .ok (.struct (some "Person") []) := by
  refine ⟨?_, rfl, rfl, rfl, rfl, rfl⟩
  intro fuel typeName st e st' h
  cases fuel with
  | zero => exact absurd h (by simp [parseMapOrStructLiteral])
  | succ fuel =>
    rw [parseMapOrStructLiteral] at h
    split at h
    · exact absurd h (by simp)
    next st1 heq =>
      have hst1 : st1 = advance st := by
        unfold expectTok at heq
        split at heq
        · exact ((Except.ok.injEq _ _).mp heq).symm
        · exact absurd heq (by simp)
      split at h
      next hRB =>
        split at h
        next tn =>
          have he : e = .struct (some tn) [] := by
            have := (Except.ok.injEq _ _).mp h
            exact ((Prod.mk.injEq _ _ _ _).mp this).1.symm
          subst he
          constructor
          · simp
          · simp
        next hnone =>
          have he : e = .mapExpr [] := by
            have := (Except.ok.injEq _ _).mp h
            exact ((Prod.mk.injEq _ _ _ _).mp this).1.symm
          subst he
          rw [hst1] at hRB
          constructor
          · simp [hRB]
          · simp [hRB]
      next hRB =>
        split at h
        next hc =>
          split at h
          · exact absurd h (by simp)
          next fields st2 heq2 =>
            simp only [] at h
            rcases hE : expectTok TokenType.RBRACE
                (if st2.current.type = TokenType.COMMA then advance st2 else st2) with
              _ | st4
            · rw [hE] at h; exact absurd h (by simp)
            · rw [hE] at h
              have he : e = .struct typeName fields := by
                have := (Except.ok.injEq _ _).mp h
                exact ((Prod.mk.injEq _ _ _ _).mp this).1.symm
              subst he
              rw [hst1] at hc
              constructor
              · constructor
                · intro _; exact hc.symm
                · intro _; exact ⟨fields, rfl⟩
              · constructor
                · rintro ⟨entries, hne⟩; exact absurd hne (by simp)
                · rintro ⟨hnone, hnc⟩
                  rcases hc with h1 | h1
                  · exact absurd h1 hnc
                  · exact absurd hnone h1
        next hc =>
          rw [not_or, not_not] at hc
          split at h
          · exact absurd h (by simp)
          next entries st2 heq2 =>
            simp only [] at h
            rcases hE : expectTok TokenType.RBRACE
                (if st2.current.type = TokenType.COMMA then advance st2 else st2) with
              _ | st4
            · rw [hE] at h; exact absurd h (by simp)
            · rw [hE] at h
              have he : e = .mapExpr entries := by
                have := (Except.ok.injEq _ _).mp h
                exact ((Prod.mk.injEq _ _ _ _).mp this).1.symm
              subst he
              rw [hst1] at hc
              constructor
              · constructor
                · rintro ⟨fs, hne⟩; exact absurd hne (by simp)
                · rintro (h1 | h1)
                  · exact absurd hc.2 h1
                  · exact absurd h1 hc.1
              · constructor
                · intro _; exact ⟨hc.2, hc.1⟩
                · intro _; exact ⟨entries, rfl⟩

/-- C7 witness: the disambiguation applied to two concrete brace
literals, an empty map literal and an empty struct literal tagged P. -/
theorem braceLiteralDisambiguationC7_witness :
    (∃ entries, Expr.mapExpr ([] : List (Expr × Expr)) = Expr.mapExpr entries) ∧
    (∃ fields, Expr.struct (some "P") [] = Expr.struct (some "P") fields) :=
  ⟨(braceLiteralDisambiguationC7.1 5 none
      ⟨⟨.LBRACE, "\x7b", 1, 1⟩, [⟨.RBRACE, "\x7d", 1, 2⟩]⟩
      (.mapExpr []) ⟨eofToken, []⟩ rfl).2.mpr (by decide),
   (braceLiteralDisambiguationC7.1 5 (some "P")
      ⟨⟨.LBRACE, "\x7b", 1, 1⟩, [⟨.RBRACE, "\x7d", 1, 2⟩]⟩
      (.struct (some "P") []) ⟨eofToken, []⟩ rfl).1.mpr (by decide)⟩

theorem lcLE_refl (a : Nat × Nat) : lcLE a a := Or.inr ⟨rfl, le_refl _⟩

theorem lcLE_trans {a b c : Nat × Nat} (h1 : lcLE a b) (h2 : lcLE b c) : lcLE a c := by
  rcases h1 with h1 | ⟨h1, h1c⟩ <;> rcases h2 with h2 | ⟨h2, h2c⟩ <;> unfold lcLE <;> omega

theorem step_lcLE (inp : List Char) (s : LexState) : lcLE (lcOf s) (lcOf (step inp s)) := by
  unfold step
  split
  · exact lcLE_refl _
  · split
    · split <;> exact Or.inl (by simp [lcOf])
    · split
      · exact Or.inl (by simp [lcOf])
      · exact Or.inr (by simp [lcOf])

theorem step_posOK (inp : List Char) (s : LexState) (h : posOK s) : posOK (step inp s) := by
  unfold step
  split
  · exact h
  · unfold posOK at h ⊢
    split
    · split <;> simp
    · split
      · simp
      · simp; omega

theorem forward_lcLE (inp : List Char) : ∀ (n : Nat) (s : LexState),
    lcLE (lcOf s) (lcOf (forward inp n s)) := by
  intro n
  induction n with
  | zero => intro s; exact lcLE_refl _
  | succ n ih =>
    intro s
    exact lcLE_trans (step_lcLE inp s) (ih (step inp s))

theorem forward_posOK (inp : List Char) : ∀ (n : Nat) (s : LexState),
    posOK s → posOK (forward inp n s) := by
  intro n
  induction n with
  | zero => intro s h; exact h
  | succ n ih => intro s h; exact ih (step inp s) (step_posOK inp s h)

theorem reaches_refl (inp : List Char) (s : LexState) : Reaches inp s s := ⟨0, rfl⟩

theorem reaches_step (inp : List Char) (s : LexState) : Reaches inp s (step inp s) := ⟨1, rfl⟩

theorem reaches_forward (inp : List Char) (n : Nat) (s : LexState) :
    Reaches inp s (forward inp n s) := ⟨n, rfl⟩

theorem forward_forward (inp : List Char) : ∀ (m : Nat) (s : LexState) (n : Nat),
    forward inp n (forward inp m s) = forward inp (m + n) s := by
  intro m
  induction m with
  | zero => intro s n; rw [Nat.zero_add]; rfl
  | succ m ih =>
    intro s n
    show forward inp n (forward inp m (step inp s)) = _
    rw [ih (step inp s) n]
    show forward inp (m + n) (step inp s) = forward inp (m + 1 + n) s
    have : m + 1 + n = (m + n) + 1 := by omega
    rw [this]
    rfl

theorem reaches_trans {inp : List Char} {s s1 s2 : LexState}
    (h1 : Reaches inp s s1) (h2 : Reaches inp s1 s2) : Reaches inp s s2 := by
  obtain ⟨m, hm⟩ := h1
  obtain ⟨n, hn⟩ := h2
  exact ⟨m + n, by rw [hn, hm, forward_forward]⟩

theorem reaches_lcLE {inp : List Char} {s s1 : LexState} (h : Reaches inp s s1) :
    lcLE (lcOf s) (lcOf s1) := by
  obtain ⟨n, hn⟩ := h
  rw [hn]
  exact forward_lcLE inp n s

theorem reaches_posOK {inp : List Char} {s s1 : LexState} (h : Reaches inp s s1)
    (hp : posOK s) : posOK s1 := by
  obtain ⟨n, hn⟩ := h
  rw [hn]
  exact forward_posOK inp n s hp

theorem wsGo_reaches (inp : List Char) : ∀ (fuel : Nat) (s : LexState),
    Reaches inp s (wsGo inp fuel s) := by
  intro fuel
  induction fuel with
  | zero => intro s; exact reaches_refl inp s
  | succ fuel ih =>
    intro s
    rw [wsGo]
    split
    · split
      · exact reaches_trans (reaches_step inp s) (ih (step inp s))
      · exact reaches_refl inp s
    · exact reaches_refl inp s

theorem digitsGo_reaches (inp : List Char) : ∀ (fuel : Nat) (s : LexState),
    Reaches inp s (digitsGo inp fuel s) := by
  intro fuel
  induction fuel with
  | zero => intro s; exact reaches_refl inp s
  | succ fuel ih =>
    intro s
    rw [digitsGo]
    split
    · split
      · exact reaches_trans (reaches_step inp s) (ih (step inp s))
      · exact reaches_refl inp s
    · exact reaches_refl inp s

theorem hexDigitsGo_reaches (inp : List Char) : ∀ (fuel : Nat) (s : LexState),
    Reaches inp s (hexDigitsGo inp fuel s) := by
  intro fuel
  induction fuel with
  | zero => intro s; exact reaches_refl inp s
  | succ fuel ih =>
    intro s
    rw [hexDigitsGo]
    split
    · split
      · exact reaches_trans (reaches_step inp s) (ih (step inp s))
      · exact reaches_refl inp s
    · exact reaches_refl inp s

theorem identGo_reaches (inp : List Char) : ∀ (fuel : Nat) (s : LexState),
    Reaches inp s (identGo inp fuel s) := by
  intro fuel
  induction fuel with
  | zero => intro s; exact reaches_refl inp s
  | succ fuel ih =>
    intro s
    rw [identGo]
    split
    · split
      · exact reaches_trans (reaches_step inp s) (ih (step inp s))
      · exact reaches_refl inp s
    · exact reaches_refl inp s

theorem okPairInj {ε α β : Type} {a c : α} {b d : β}
    (h : (Except.ok (a, b) : Except ε (α × β)) = .ok (c, d)) : a = c ∧ b = d :=
  (Prod.mk.injEq _ _ _ _).mp ((Except.ok.injEq _ _).mp h)

theorem tripleGo_spec (inp : List Char) (quote : Char) (line col offset : Nat) :
    ∀ (fuel : Nat) (s : LexState) (t : Token) (s1 : LexState),
      tripleGo inp quote line col offset fuel s = .ok (t, s1) →
        t.line = line ∧ t.col = col ∧ Reaches inp s s1 := by
  intro fuel
  induction fuel with
  | zero => intro s t s1 h; exact absurd h (by simp [tripleGo])
  | succ fuel ih =>
    intro s t s1 h
    rw [tripleGo] at h
    split at h
    · split at h
      · simp only [] at h
        obtain ⟨h1, h2⟩ := okPairInj h
        exact ⟨by rw [← h1], by rw [← h1], ⟨3, h2.symm⟩⟩
      · have h3 := ih (step inp s) t s1 h
        exact ⟨h3.1, h3.2.1, reaches_trans (reaches_step inp s) h3.2.2⟩
    · exact absurd h (by simp)

theorem stringGo_spec (inp : List Char) (quote : Char) (isRaw : Bool) (line col offset : Nat) :
    ∀ (fuel : Nat) (s : LexState) (t : Token) (s1 : LexState),
      stringGo inp quote isRaw line col offset fuel s = .ok (t, s1) →
        t.line = line ∧ t.col = col ∧ Reaches inp s s1 := by
  intro fuel
  induction fuel with
  | zero => intro s t s1 h; exact absurd h (by simp [stringGo])
  | succ fuel ih =>
    intro s t s1 h
    rw [stringGo] at h
    split at h
    · exact absurd h (by simp)
    · split at h
      · simp only [] at h
        obtain ⟨h1, h2⟩ := okPairInj h
        exact ⟨by rw [← h1], by rw [← h1], ⟨1, h2.symm⟩⟩
      · split at h
        · have h3 := ih (forward inp 2 s) t s1 h
          exact ⟨h3.1, h3.2.1, reaches_trans (reaches_forward inp 2 s) h3.2.2⟩
        · have h3 := ih (step inp s) t s1 h
          exact ⟨h3.1, h3.2.1, reaches_trans (reaches_step inp s) h3.2.2⟩

theorem bytesGo_spec (inp : List Char) (quote : Char) (line col offset : Nat) :
    ∀ (fuel : Nat) (s : LexState) (t : Token) (s1 : LexState),
      bytesGo inp quote line col offset fuel s = .ok (t, s1) →
        t.line = line ∧ t.col = col ∧ Reaches inp s s1 := by
  intro fuel
  induction fuel with
  | zero => intro s t s1 h; exact absurd h (by simp [bytesGo])
  | succ fuel ih =>
    intro s t s1 h
    rw [bytesGo] at h
    split at h
    · exact absurd h (by simp)
    · split at h
      · simp only [] at h
        obtain ⟨h1, h2⟩ := okPairInj h
        exact ⟨by rw [← h1], by rw [← h1], ⟨1, h2.symm⟩⟩
      · split at h
        · have h3 := ih (forward inp 2 s) t s1 h
          exact ⟨h3.1, h3.2.1, reaches_trans (reaches_forward inp 2 s) h3.2.2⟩
        · have h3 := ih (step inp s) t s1 h
          exact ⟨h3.1, h3.2.1, reaches_trans (reaches_step inp s) h3.2.2⟩

theorem stringScan_spec (inp : List Char) (line col offset : Nat) (fuel : Nat)
    (s : LexState) (t : Token) (s1 : LexState)
    (h : stringScan inp line col offset fuel s = .ok (t, s1)) :
    t.line = line ∧ t.col = col ∧ Reaches inp s s1 := by
  unfold stringScan at h
  simp only [] at h
  split at h
  next hraw =>
    split at h
    · split at h
      · have h3 := tripleGo_spec inp _ line col offset fuel (forward inp 3 (step inp s)) t s1 h
        exact ⟨h3.1, h3.2.1,
          reaches_trans (reaches_step inp s)
            (reaches_trans (reaches_forward inp 3 (step inp s)) h3.2.2)⟩
      · exact absurd h (by simp)
    · split at h
      · have h3 := stringGo_spec inp _ true line col offset fuel (step inp (step inp s)) t s1 h
        exact ⟨h3.1, h3.2.1,
          reaches_trans (reaches_step inp s)
            (reaches_trans (reaches_step inp (step inp s)) h3.2.2)⟩
      · exact absurd h (by simp)
  next hraw =>
    split at h
    · split at h
      · have h3 := tripleGo_spec inp _ line col offset fuel (forward inp 3 s) t s1 h
        exact ⟨h3.1, h3.2.1, reaches_trans (reaches_forward inp 3 s) h3.2.2⟩
      · exact absurd h (by simp)
    · split at h
      · have h3 := stringGo_spec inp _ false line col offset fuel (step inp s) t s1 h
        exact ⟨h3.1, h3.2.1, reaches_trans (reaches_step inp s) h3.2.2⟩
      · exact absurd h (by simp)

theorem bytesScan_spec (inp : List Char) (line col offset : Nat) (fuel : Nat)
    (s : LexState) (t : Token) (s1 : LexState)
    (h : bytesScan inp line col offset fuel s = .ok (t, s1)) :
    t.line = line ∧ t.col = col ∧ Reaches inp s s1 := by
  unfold bytesScan at h
  simp only [] at h
  split at h
  · have h3 := bytesGo_spec inp _ line col offset fuel (step inp (step inp s)) t s1 h
    exact ⟨h3.1, h3.2.1,
      reaches_trans (reaches_step inp s)
        (reaches_trans (reaches_step inp (step inp s)) h3.2.2)⟩
  · exact absurd h (by simp)

theorem identScan_spec (inp : List Char) (line col offset : Nat) (fuel : Nat)
    (s : LexState) (t : Token) (s1 : LexState)
    (h : identScan inp line col offset fuel s = .ok (t, s1)) :
    t.line = line ∧ t.col = col ∧ Reaches inp s s1 := by
  unfold identScan at h
  simp only [] at h
  obtain ⟨h1, h2⟩ := okPairInj h
  exact ⟨by rw [← h1], by rw [← h1], h2 ▸ identGo_reaches inp fuel s⟩

theorem reaches_step_of {inp : List Char} {s x : LexState} (h : Reaches inp s x) :
    Reaches inp s (step inp x) := reaches_trans h (reaches_step inp x)

theorem reaches_forward_of {inp : List Char} {s x : LexState} (n : Nat)
    (h : Reaches inp s x) : Reaches inp s (forward inp n x) :=
  reaches_trans h (reaches_forward inp n x)

theorem reaches_digitsGo_of {inp : List Char} {s x : LexState} (fuel : Nat)
    (h : Reaches inp s x) : Reaches inp s (digitsGo inp fuel x) :=
  reaches_trans h (digitsGo_reaches inp fuel x)

theorem reaches_hexDigitsGo_of {inp : List Char} {s x : LexState} (fuel : Nat)
    (h : Reaches inp s x) : Reaches inp s (hexDigitsGo inp fuel x) :=
  reaches_trans h (hexDigitsGo_reaches inp fuel x)

theorem numberScan_spec (inp : List Char) (line col offset : Nat) (fuel : Nat)
    (s : LexState) (t : Token) (s1 : LexState)
    (h : numberScan inp line col offset fuel s = .ok (t, s1)) :
    t.line = line ∧ t.col = col ∧ Reaches inp s s1 := by
  unfold numberScan at h
  simp only [] at h
  repeat' split at h
  all_goals
    obtain ⟨h1, h2⟩ := okPairInj h
  all_goals
    refine ⟨by rw [← h1], by rw [← h1], h2 ▸ ?_⟩
  all_goals
    repeat
      first
        | exact reaches_refl inp s
        | apply reaches_step_of
        | apply reaches_digitsGo_of
        | apply reaches_hexDigitsGo_of
        | apply reaches_forward_of

theorem tokenAt_spec (inp : List Char) (fuel : Nat) (s : LexState) (t : Token) (s1 : LexState)
    (h : tokenAt inp fuel s = .ok (t, s1)) :
    t.line = s.line ∧ t.col = s.col ∧ Reaches inp s s1 := by
  unfold tokenAt at h
  split at h
  · obtain ⟨h1, h2⟩ := okPairInj h
    exact ⟨by rw [← h1], by rw [← h1], h2 ▸ reaches_refl inp s⟩
  next ch heq =>
    by_cases hc0 : ch = '('
    case pos =>
      rw [if_pos hc0] at h
      obtain ⟨h1, h2⟩ := okPairInj h
      exact ⟨by rw [← h1], by rw [← h1], h2 ▸ reaches_step inp s⟩
    rw [if_neg hc0] at h
    by_cases hc1 : ch = ')'
    case pos =>
      rw [if_pos hc1] at h
      obtain ⟨h1, h2⟩ := okPairInj h
      exact ⟨by rw [← h1], by rw [← h1], h2 ▸ reaches_step inp s⟩
    rw [if_neg hc1] at h
    by_cases hc2 : ch = '['
    case pos =>
      rw [if_pos hc2] at h
      obtain ⟨h1, h2⟩ := okPairInj h
      exact ⟨by rw [← h1], by rw [← h1], h2 ▸ reaches_step inp s⟩
    rw [if_neg hc2] at h
    by_cases hc3 : ch = ']'
    case pos =>
      rw [if_pos hc3] at h
      obtain ⟨h1, h2⟩ := okPairInj h
      exact ⟨by rw [← h1], by rw [← h1], h2 ▸ reaches_step inp s⟩
    rw [if_neg hc3] at h
    by_cases hc4 : ch = '\x7b'
    case pos =>
      rw [if_pos hc4] at h
      obtain ⟨h1, h2⟩ := okPairInj h
      exact ⟨by rw [← h1], by rw [← h1], h2 ▸ reaches_step inp s⟩
    rw [if_neg hc4] at h
    by_cases hc5 : ch = '\x7d'
    case pos =>
      rw [if_pos hc5] at h
      obtain ⟨h1, h2⟩ := okPairInj h
      exact ⟨by rw [← h1], by rw [← h1], h2 ▸ reaches_step inp s⟩
    rw [if_neg hc5] at h
    by_cases hc6 : ch = ','
    case pos =>
      rw [if_pos hc6] at h
      obtain ⟨h1, h2⟩ := okPairInj h
      exact ⟨by rw [← h1], by rw [← h1], h2 ▸ reaches_step inp s⟩
    rw [if_neg hc6] at h
    by_cases hc7 : ch = '.'
    case pos =>
      rw [if_pos hc7] at h
      obtain ⟨h1, h2⟩ := okPairInj h
      exact ⟨by rw [← h1], by rw [← h1], h2 ▸ reaches_step inp s⟩
    rw [if_neg hc7] at h
    by_cases hc8 : ch = ':'
    case pos =>
      rw [if_pos hc8] at h
      obtain ⟨h1, h2⟩ := okPairInj h
      exact ⟨by rw [← h1], by rw [← h1], h2 ▸ reaches_step inp s⟩
    rw [if_neg hc8] at h
    by_cases hc9 : ch = '?'
    case pos =>
      rw [if_pos hc9] at h
      obtain ⟨h1, h2⟩ := okPairInj h
      exact ⟨by rw [← h1], by rw [← h1], h2 ▸ reaches_step inp s⟩
    rw [if_neg hc9] at h
    by_cases hc10 : ch = '+'
    case pos =>
      rw [if_pos hc10] at h
      obtain ⟨h1, h2⟩ := okPairInj h
      exact ⟨by rw [← h1], by rw [← h1], h2 ▸ reaches_step inp s⟩
    rw [if_neg hc10] at h
    by_cases hc11 : ch = '*'
    case pos =>
      rw [if_pos hc11] at h
      obtain ⟨h1, h2⟩ := okPairInj h
      exact ⟨by rw [← h1], by rw [← h1], h2 ▸ reaches_step inp s⟩
    rw [if_neg hc11] at h
    by_cases hc12 : ch = '/'
    case pos =>
      rw [if_pos hc12] at h
      obtain ⟨h1, h2⟩ := okPairInj h
      exact ⟨by rw [← h1], by rw [← h1], h2 ▸ reaches_step inp s⟩
    rw [if_neg hc12] at h
    by_cases hc13 : ch = '%'
    case pos =>
      rw [if_pos hc13] at h
      obtain ⟨h1, h2⟩ := okPairInj h
      exact ⟨by rw [← h1], by rw [← h1], h2 ▸ reaches_step inp s⟩
    rw [if_neg hc13] at h
    by_cases hc14 : ch = '&' ∧ inp.get? (s.pos + 1) = some '&'
    case pos =>
      rw [if_pos hc14] at h
      obtain ⟨h1, h2⟩ := okPairInj h
      exact ⟨by rw [← h1], by rw [← h1], h2 ▸ reaches_forward inp 2 s⟩
    rw [if_neg hc14] at h
    by_cases hc15 : ch = '|' ∧ inp.get? (s.pos + 1) = some '|'
    case pos =>
      rw [if_pos hc15] at h
      obtain ⟨h1, h2⟩ := okPairInj h
      exact ⟨by rw [← h1], by rw [← h1], h2 ▸ reaches_forward inp 2 s⟩
    rw [if_neg hc15] at h
    by_cases hc16 : ch = '=' ∧ inp.get? (s.pos + 1) = some '='
    case pos =>
      rw [if_pos hc16] at h
      obtain ⟨h1, h2⟩ := okPairInj h
      exact ⟨by rw [← h1], by rw [← h1], h2 ▸ reaches_forward inp 2 s⟩
    rw [if_neg hc16] at h
    by_cases hc17 : ch = '!' ∧ inp.get? (s.pos + 1) = some '='
    case pos =>
      rw [if_pos hc17] at h
      obtain ⟨h1, h2⟩ := okPairInj h
      exact ⟨by rw [← h1], by rw [← h1], h2 ▸ reaches_forward inp 2 s⟩
    rw [if_neg hc17] at h
    by_cases hc18 : ch = '<' ∧ inp.get? (s.pos + 1) = some '='
    case pos =>
      rw [if_pos hc18] at h
      obtain ⟨h1, h2⟩ := okPairInj h
      exact ⟨by rw [← h1], by rw [← h1], h2 ▸ reaches_forward inp 2 s⟩
    rw [if_neg hc18] at h
    by_cases hc19 : ch = '>' ∧ inp.get? (s.pos + 1) = some '='
    case pos =>
      rw [if_pos hc19] at h
      obtain ⟨h1, h2⟩ := okPairInj h
      exact ⟨by rw [← h1], by rw [← h1], h2 ▸ reaches_forward inp 2 s⟩
    rw [if_neg hc19] at h
    by_cases hc20 : ch = '<'
    case pos =>
      rw [if_pos hc20] at h
      obtain ⟨h1, h2⟩ := okPairInj h
      exact ⟨by rw [← h1], by rw [← h1], h2 ▸ reaches_step inp s⟩
    rw [if_neg hc20] at h
    by_cases hc21 : ch = '>'
    case pos =>
      rw [if_pos hc21] at h
      obtain ⟨h1, h2⟩ := okPairInj h
      exact ⟨by rw [← h1], by rw [← h1], h2 ▸ reaches_step inp s⟩
    rw [if_neg hc21] at h
    by_cases hc22 : ch = '!'
    case pos =>
      rw [if_pos hc22] at h
      obtain ⟨h1, h2⟩ := okPairInj h
      exact ⟨by rw [← h1], by rw [← h1], h2 ▸ reaches_step inp s⟩
    rw [if_neg hc22] at h
    by_cases hc23 : ch = '-'
    case pos =>
      rw [if_pos hc23] at h
      obtain ⟨h1, h2⟩ := okPairInj h
      exact ⟨by rw [← h1], by rw [← h1], h2 ▸ reaches_step inp s⟩
    rw [if_neg hc23] at h
    by_cases hc24 : ch = '"' ∨ ch = '\''
    case pos =>
      rw [if_pos hc24] at h
      exact stringScan_spec inp s.line s.col s.pos fuel s t s1 h
    rw [if_neg hc24] at h
    by_cases hc25 : (ch = 'r' ∨ ch = 'R') ∧ s.pos + 1 < inp.length ∧ (inp.get? (s.pos + 1) = some '"' ∨ inp.get? (s.pos + 1) = some '\'')
    case pos =>
      rw [if_pos hc25] at h
      exact stringScan_spec inp s.line s.col s.pos fuel s t s1 h
    rw [if_neg hc25] at h
    by_cases hc26 : (ch = 'b' ∨ ch = 'B') ∧ s.pos + 1 < inp.length ∧ (inp.get? (s.pos + 1) = some '"' ∨ inp.get? (s.pos + 1) = some '\'')
    case pos =>
      rw [if_pos hc26] at h
      exact bytesScan_spec inp s.line s.col s.pos fuel s t s1 h
    rw [if_neg hc26] at h
    by_cases hc27 : isDigitCh ch = true
    case pos =>
      rw [if_pos hc27] at h
      exact numberScan_spec inp s.line s.col s.pos fuel s t s1 h
    rw [if_neg hc27] at h
    by_cases hc28 : (isLetterCh ch || ch = '_') = true
    case pos =>
      rw [if_pos hc28] at h
      exact identScan_spec inp s.line s.col s.pos fuel s t s1 h
    rw [if_neg hc28] at h
    exact absurd h (by simp)

theorem token_spec (inp : List Char) (fuel : Nat) (s0 : LexState) (t : Token) (s1 : LexState)
    (h : token inp fuel s0 = .ok (t, s1)) :
    ∃ smid, Reaches inp s0 smid ∧ t.line = smid.line ∧ t.col = smid.col ∧
      Reaches inp smid s1 := by
  unfold token at h
  have h3 := tokenAt_spec inp fuel (wsGo inp fuel s0) t s1 h
  exact ⟨wsGo inp fuel s0, wsGo_reaches inp fuel s0, h3.1, h3.2.1, h3.2.2⟩

theorem tokenList_spec (inp : List Char) : ∀ (fuel : Nat) (s : LexState) (ts : List Token),
    tokenList inp fuel s = .ok ts →
      (∀ t ∈ ts, lcLE (lcOf s) (lcOfTok t)) ∧
      List.Chain' lcLE (ts.map lcOfTok) ∧
      (posOK s → ∀ t ∈ ts, 1 ≤ t.line ∧ 1 ≤ t.col) := by
  intro fuel
  induction fuel with
  | zero => intro s ts h; exact absurd h (by simp [tokenList])
  | succ fuel ih =>
    intro s ts h
    rw [tokenList] at h
    split at h
    · exact absurd h (by simp)
    next t0 s1 heq =>
      obtain ⟨smid, hR1, hline, hcol, hR2⟩ := token_spec inp fuel s t0 s1 heq
      have hlc1 : lcLE (lcOf s) (lcOfTok t0) := by
        have := reaches_lcLE hR1
        simpa [lcOfTok, lcOf, hline, hcol] using this
      have hlc2 : lcLE (lcOfTok t0) (lcOf s1) := by
        have := reaches_lcLE hR2
        simpa [lcOfTok, lcOf, hline, hcol] using this
      split at h
      · have hts : ts = [t0] := ((Except.ok.injEq _ _).mp h).symm
        subst hts
        refine ⟨?_, by simp, ?_⟩
        · intro t ht
          rw [List.mem_singleton] at ht
          subst ht
          exact hlc1
        · intro hp t ht
          rw [List.mem_singleton] at ht
          subst ht
          have hmid := reaches_posOK hR1 hp
          exact ⟨hline ▸ hmid.1, hcol ▸ hmid.2⟩
      · split at h
        · exact absurd h (by simp)
        next ts' heq2 =>
          have hts : ts = t0 :: ts' := ((Except.ok.injEq _ _).mp h).symm
          subst hts
          obtain ⟨ih1, ih2, ih3⟩ := ih s1 ts' heq2
          have hss1 : lcLE (lcOf s) (lcOf s1) := lcLE_trans hlc1 hlc2
          refine ⟨?_, ?_, ?_⟩
          · intro t ht
            rcases List.mem_cons.mp ht with h' | h'
            · subst h'; exact hlc1
            · exact lcLE_trans hss1 (ih1 t h')
          · rw [List.map_cons]
            refine List.chain'_cons'.mpr ⟨?_, ih2⟩
            intro b hb
            cases ts' with
            | nil => simp at hb
            | cons u us =>
              rw [List.map_cons, List.head?_cons, Option.mem_some_iff] at hb
              subst hb
              exact lcLE_trans hlc2 (ih1 u (List.mem_cons_self u us))
          · intro hp t ht
            rcases List.mem_cons.mp ht with h' | h'
            · subst h'
              have hmid := reaches_posOK hR1 hp
              exact ⟨hline ▸ hmid.1, hcol ▸ hmid.2⟩
            · exact ih3 (reaches_posOK (reaches_trans hR1 hR2) hp) t h'

/-- C8 counterexample: a bare line feed is not an "other character"
that advances the column by one — stepping over it advances the line
counter and resets the column to 1, so the token after the newline in a
two-line input is reported at line 2 column 1 rather than further along
line 1. -/
theorem lexerLineColumnC8_counterexample :
    step ['\n'] ⟨0, 1, 1⟩ = ⟨1, 2, 1⟩ ∧
    step ['\n'] ⟨0, 1, 1⟩ ≠ ⟨1, 1, 2⟩ ∧
    tokenList "ab\ncd".data 20 lexInit =
      .ok [⟨.IDENTIFIER, "ab", 1, 1⟩, ⟨.IDENTIFIER, "cd", 2, 1⟩, ⟨.EOF, "", 2, 3⟩] :=
  ⟨rfl, by decide, rfl⟩

/-- C8 amended: stepping over a carriage return also consumes a
directly following line feed, and a carriage return (with or without
the following line feed) as well as a bare line feed advances the line
counter exactly once and resets the column to 1 — a CRLF pair never
counts as two newlines — while every character other than CR and LF
advances the column by exactly one; token line and column positions
from the initial state are 1-based and monotonically non-decreasing in
lexicographic order. -/
theorem lexerLineColumnC8 :
    (∀ (inp : List Char) (s : LexState) (ch : Char), inp.get? s.pos = some ch →
      (ch = '\r' → inp.get? (s.pos + 1) = some '\n' →
        step inp s = ⟨s.pos + 2, s.line + 1, 1⟩) ∧
      (ch = '\r' → inp.get? (s.pos + 1) ≠ some '\n' →
        step inp s = ⟨s.pos + 1, s.line + 1, 1⟩) ∧
      (ch = '\n' → step inp s = ⟨s.pos + 1, s.line + 1, 1⟩) ∧
      (ch ≠ '\r' → ch ≠ '\n' → step inp s = ⟨s.pos + 1, s.line, s.col + 1⟩)) ∧
    (∀ (inp : List Char) (fuel : Nat) (ts : List Token),
      tokenList inp fuel lexInit = .ok ts →
        (∀ t ∈ ts, 1 ≤ t.line ∧ 1 ≤ t.col) ∧
        List.Chain' lcLE (ts.map lcOfTok)) := by
  constructor
  · intro inp s ch hch
    rw [List.get?_eq_getElem?] at hch
    refine ⟨?_, ?_, ?_, ?_⟩
    · intro h1 h2
      subst h1
      rw [List.get?_eq_getElem?] at h2
      simp [step, hch, h2]
    · intro h1 h2
      subst h1
      rw [List.get?_eq_getElem?] at h2
      simp [step, hch, h2]
    · intro h1
      subst h1
      simp [step, hch]
    · intro h1 h2
      simp [step, hch, h1, h2]
  · intro inp fuel ts h
    have h3 := tokenList_spec inp fuel lexInit ts h
    exact ⟨h3.2.2 ⟨le_refl 1, le_refl 1⟩, h3.2.1⟩

/-- C8 witness: the amended statement applied to a newline step in a
concrete input and to the concrete token stream of a two-line input. -/
theorem lexerLineColumnC8_witness :
    step "a\nb".data ⟨1, 1, 2⟩ = ⟨2, 2, 1⟩ ∧
    ((∀ t ∈ ([⟨.IDENTIFIER, "ab", 1, 1⟩, ⟨.IDENTIFIER, "cd", 2, 1⟩,
        ⟨.EOF, "", 2, 3⟩] : List Token), 1 ≤ t.line ∧ 1 ≤ t.col) ∧
      List.Chain' lcLE (([⟨.IDENTIFIER, "ab", 1, 1⟩, ⟨.IDENTIFIER, "cd", 2, 1⟩,
        ⟨.EOF, "", 2, 3⟩] : List Token).map lcOfTok)) :=
  ⟨(lexerLineColumnC8.1 "a\nb".data ⟨1, 1, 2⟩ '\n' rfl).2.2.1 rfl,
   lexerLineColumnC8.2 "ab\ncd".data 20 _ rfl⟩

end Cel
